import Mathlib

/-!
Verification development for the timetable scheduling engine in
`Time_table/timetable_generator.py` (with the HTTP adapter `Time_table/app.py`).

The engine is shallowly embedded: Python dict-backed weekly grids become a
structure with an explicit key list and a total cell function, the process-wide
PRNG (`random.sample(DAYS, len(DAYS))`, seeded once per run) is modelled as a
deterministic stream of day orders that is threaded through every call that
draws from it, and Python exceptions become `Except` values.  Python's
`str.strip`, `str.split`, `str.upper` and friends are embedded directly on
`List Char` so that their algebra is available to proofs.
-/

namespace TimeTable

/-! ## Python string primitives -/

/-- The whitespace set of Python's `str.strip` / `str.split` (ASCII part). -/
def isPyWS (c : Char) : Bool :=
  c == ' ' || c == '\t' || c == '\n' || c == '\r' || c == '\x0b' || c == '\x0c'

/-- Python `s.strip()`. -/
def pyStrip (s : String) : String :=
  ⟨((s.data.dropWhile isPyWS).reverse.dropWhile isPyWS).reverse⟩

/-- Split a character list at every separator satisfying `p`, keeping empty
pieces (the behaviour of Python's `str.split(sep)` for an explicit `sep`). -/
def splitListBy (p : Char → Bool) : List Char → List String
  | [] => [""]
  | c :: t =>
      let r := splitListBy p t
      if p c then "" :: r
      else
        match r with
        | h :: rest => (⟨c :: h.data⟩ : String) :: rest
        | [] => [⟨[c]⟩]

/-- Python `s.split()` (split on whitespace runs, dropping empty pieces). -/
def pySplitWS (s : String) : List String :=
  (splitListBy isPyWS s.data).filter (fun t => t ≠ "")

/-- Python `s.split('-')`. -/
def pySplitDash (s : String) : List String :=
  splitListBy (fun c => c == '-') s.data

/-- Python `s.upper()` (ASCII behaviour). -/
def pyUpper (s : String) : String := ⟨s.data.map Char.toUpper⟩

/-- Python `s.lower()` (ASCII behaviour). -/
def pyLower (s : String) : String := ⟨s.data.map Char.toLower⟩

/-- Substring occurrence on character lists: Python's `needle in hay`. -/
def listHasSub (needle : List Char) : List Char → Bool
  | [] => needle.isEmpty
  | c :: t => needle.isPrefixOf (c :: t) || listHasSub needle t

/-- Python `needle in hay` for strings. -/
def strHasSub (hay needle : String) : Bool := listHasSub needle.data hay.data

/-- `normalize_token`: `re.sub(r'\s+','', s.strip()).upper()` — drop every
whitespace character and uppercase the rest. -/
def normalize_token (s : String) : String :=
  ⟨(s.data.filter (fun c => !isPyWS c)).map Char.toUpper⟩

/-! ## Config -/

def DAYS : List String := ["Mon", "Tue", "Wed", "Thu", "Fri", "Sat"]

/-- `SHIFT_SLOTS`: the two built-in shift templates; any other shift name has
no slots (the Python dict has exactly these two keys). -/
def SHIFT_SLOTS (shift : String) : List String :=
  if shift = "8-3" then
    ["8-8:45", "8:45-9:45",
     "9:45-10:00 Short Break",
     "10:00-11:00", "11:00-12:00",
     "12:00-12:45 Lunch Break",
     "12:45-1:45", "1:45-2:45"]
  else if shift = "10-5" then
    ["10:00-11:00", "11:00-12:00",
     "12:00-12:45 Lunch Break",
     "12:45-1:45", "1:45-2:45",
     "2:45-3:00 Short Break",
     "3-4", "4-5"]
  else []

def FREE_DAY_LABEL : String := "COMPETITIVE EXAM/SUNCLUBS/SPORT"

/-- The test `"Break" in s or "Lunch" in s` used throughout the source to
recognise inert (non-teaching) slots. -/
def isInert (s : String) : Bool := strHasSub s "Break" || strHasSub s "Lunch"

/-! ## Slot canonicalization

`parse_time_token` matches `^(\d{1,2})(?::(\d{1,2}))?$` against the stripped
token.  Because a digit can never be followed by the end-of-token or by `':'`
in a position where the two-digit alternative also survives, the anchored
regex accepts exactly the six shapes `d`, `dd`, `d:d`, `d:dd`, `dd:d`,
`dd:dd`, which the embedding enumerates directly. -/

/-- Error kinds raised while parsing a slot label: `ValueError` (the spec's
`InvalidSlotFormat`) from the token/format checks, and Python's `IndexError`
from `slot_label.split()[0]` on a label with no token. -/
inductive SlotErr where
  | invalidFormat
  | indexError
deriving DecidableEq, Repr

instance {ε α : Type} [DecidableEq ε] [DecidableEq α] : DecidableEq (Except ε α) := fun a b =>
  match a, b with
  | .ok x, .ok y =>
      if h : x = y then .isTrue (by rw [h]) else .isFalse (by simp [h])
  | .error x, .error y =>
      if h : x = y then .isTrue (by rw [h]) else .isFalse (by simp [h])
  | .ok _, .error _ => .isFalse (by simp)
  | .error _, .ok _ => .isFalse (by simp)

def digitVal (c : Char) : Nat := c.toNat - 48

/-- The anchored match of `(\d{1,2})(?::(\d{1,2}))?` returning (hour, minute). -/
def matchTimeShape : List Char → Option (Nat × Nat)
  | [h1] =>
      if h1.isDigit then some (digitVal h1, 0) else none
  | [h1, h2] =>
      if h1.isDigit && h2.isDigit then some (10 * digitVal h1 + digitVal h2, 0) else none
  | [h1, ':', m1] =>
      if h1.isDigit && m1.isDigit then some (digitVal h1, digitVal m1) else none
  | [h1, ':', m1, m2] =>
      if h1.isDigit && m1.isDigit && m2.isDigit then
        some (digitVal h1, 10 * digitVal m1 + digitVal m2) else none
  | [h1, h2, ':', m1] =>
      if h1.isDigit && h2.isDigit && m1.isDigit then
        some (10 * digitVal h1 + digitVal h2, digitVal m1) else none
  | [h1, h2, ':', m1, m2] =>
      if h1.isDigit && h2.isDigit && m1.isDigit && m2.isDigit then
        some (10 * digitVal h1 + digitVal h2, 10 * digitVal m1 + digitVal m2) else none
  | _ => none

/-- `parse_time_token(tok)`: strip, match the regex, raise `ValueError` on a
mismatch, and coerce hours strictly below 8 by adding 12. -/
def parse_time_token (tok : String) : Except SlotErr Nat :=
  match matchTimeShape (pyStrip tok).data with
  | none => .error .invalidFormat
  | some (hh, mm) =>
      let hh := if hh < 8 then hh + 12 else hh
      .ok (hh * 60 + mm)

/-- `slot_label_to_canonical(slot_label)`: take the first whitespace token
(`split()[0]`, an `IndexError` when there is none), split it on `-`, require
exactly two parts, and parse each part. -/
def slot_label_to_canonical (slot_label : String) : Except SlotErr (Nat × Nat) :=
  match pySplitWS slot_label with
  | [] => .error .indexError
  | main :: _ =>
      match pySplitDash main with
      | [a, b] => do
          let start ← parse_time_token (pyStrip a)
          let stop ← parse_time_token (pyStrip b)
          .ok (start, stop)
      | _ => .error .invalidFormat

/-- `CANONICAL_MAP[shift].get(label)`: `some` exactly on the labels of the
shift whose parse succeeded (`try ... except: canon = None`). -/
def canonical_map (shift label : String) : Option (Nat × Nat) :=
  if (SHIFT_SLOTS shift).contains label then (slot_label_to_canonical label).toOption
  else none

/-- `slots_equivalent`: both canonicals present and componentwise equal. -/
def slots_equivalent (shift_a label_a shift_b label_b : String) : Bool :=
  match canonical_map shift_a label_a, canonical_map shift_b label_b with
  | some ca, some cb => ca.1 == cb.1 && ca.2 == cb.2
  | _, _ => false

def pair_slots_equivalent (shift_a a1 a2 shift_b b1 b2 : String) : Bool :=
  slots_equivalent shift_a a1 shift_b b1 && slots_equivalent shift_a a2 shift_b b2

/-! ## Shift compatibility rules -/

/-- `is_slot_allowed_for_10_5_on_8_3`: look the label up in the first shift
map that has it as a key (insertion order `"8-3"`, `"10-5"`) and require a
canonical start of at least 600 minutes (10:00). -/
def is_slot_allowed_for_10_5_on_8_3 (slot_label : String) : Bool :=
  let canon :=
    if (SHIFT_SLOTS "8-3").contains slot_label then canonical_map "8-3" slot_label
    else if (SHIFT_SLOTS "10-5").contains slot_label then canonical_map "10-5" slot_label
    else none
  match canon with
  | none => false
  | some c => decide (600 ≤ c.1)

def division_slot_allowed_for_faculty (fac_shift div_shift slot_label : String) : Bool :=
  if fac_shift = "10-5" && div_shift = "8-3" then
    is_slot_allowed_for_10_5_on_8_3 slot_label
  else true

def division_pair_allowed_for_faculty (fac_shift div_shift : String)
    (pair : String × String) : Bool :=
  if fac_shift = "10-5" && div_shift = "8-3" then
    is_slot_allowed_for_10_5_on_8_3 pair.1 && is_slot_allowed_for_10_5_on_8_3 pair.2
  else true

/-! ## Grid store

A Python table is `dict day -> dict slot -> str`; the embedding keeps the key
sets explicitly (`days` is always `DAYS`, `slots` is the owning shift's slot
sequence) together with a total cell function whose default `""` mirrors
`row.get(slot, "")`. -/

structure Grid where
  days : List String
  slots : List String
  cell : String → String → String

/-- `tbl[day][slot] = v`. -/
def setCell (g : Grid) (day slot v : String) : Grid :=
  { g with cell := fun d s => if d = day ∧ s = slot then v else g.cell d s }

/-- `empty_table_for_shift`: inert slots are initialized to their own label,
teaching slots to `""`. -/
def empty_table_for_shift (shift : String) : Grid :=
  { days := DAYS
    slots := SHIFT_SLOTS shift
    cell := fun d s =>
      if d ∈ DAYS ∧ s ∈ SHIFT_SLOTS shift then (if isInert s then s else "") else "" }

/-- `consecutive_pairs_for_shift`: adjacent slot pairs skipping any pair that
touches an inert label or a label without a canonical value. -/
def consecutive_pairs_for_shift (shift : String) : List (String × String) :=
  let slots := SHIFT_SLOTS shift
  (slots.zip slots.tail).filter (fun p =>
    !(isInert p.1 || isInert p.2) &&
    (canonical_map shift p.1).isSome && (canonical_map shift p.2).isSome)

/-! ## Constraint evaluator -/

/-- `free_slot(tbl, day, slot)`: stripped cell empty → free; every branch on a
non-empty stripped value (holiday marker, break/lunch, `MERGE`, anything else)
returns `False`. -/
def free_slot (tbl : Grid) (day slot : String) : Bool :=
  let val := tbl.cell day slot
  let v := pyStrip val
  if v = "" then true
  else
    let up := pyUpper v
    if strHasSub up (pyUpper FREE_DAY_LABEL) || strHasSub up "COMPETITIVE" ||
       strHasSub up "SUNCLUBS" || strHasSub up "SPORT" || strHasSub up "HOLIDAY" then false
    else if strHasSub up "BREAK" || strHasSub up "LUNCH" || v = "MERGE" then false
    else false

def free_pair (tbl : Grid) (day s1 s2 : String) : Bool :=
  free_slot tbl day s1 && free_slot tbl day s2

/-- `day_has_subject`: some cell of the day contains the stripped lowercased
subject as a substring (case-insensitively); an empty target never matches. -/
def day_has_subject (tbl : Grid) (day subject : String) : Bool :=
  let target := pyLower (pyStrip subject)
  if target = "" then false
  else tbl.slots.any (fun s => strHasSub (pyLower (tbl.cell day s)) target)

/-- `day_has_division`: some cell of the day contains both `sem{sem}` and
`div{div}` after lowercasing and removing spaces. -/
def day_has_division (tbl : Grid) (day sem div : String) : Bool :=
  let needle_sem := pyLower ("sem" ++ sem)
  let needle_div := pyLower ("div" ++ div)
  tbl.slots.any (fun s =>
    let low : String := ⟨(pyLower (tbl.cell day s)).data.filter (fun c => c ≠ ' ')⟩
    strHasSub low needle_sem && strHasSub low needle_div)

/-! ## Free-day settings and holiday helpers -/

/-- `FREE_DAY_SETTINGS`: mapping `(sem, normalized div) -> [days]`, embedded
as an association list consulted with first-match lookup (a Python dict). -/
abbrev Fds : Type := List ((String × String) × List String)

/-- `FREE_DAY_SETTINGS.get((str(sem), normalize_token(div)), [])`. -/
def fdsGet (fds : Fds) (sem div : String) : List String :=
  match fds.find? (fun e => e.1 = (sem, normalize_token div)) with
  | some e => e.2
  | none => []

/-- `is_division_holiday`. -/
def is_division_holiday (fds : Fds) (sem div day : String) : Bool :=
  (fdsGet fds sem div).contains day

/-! ## Division-table store -/

/-- `dtables`: `(sem, div) -> {"shift": shift, "table": table}`. -/
abbrev DTables : Type := List ((String × String) × (String × Grid))

def dtLookup (dt : DTables) (k : String × String) : Option (String × Grid) :=
  match dt.find? (fun e => e.1 = k) with
  | some e => some e.2
  | none => none

/-- Replace the stored table of an existing key (the functional image of
mutating the aliased dict in place). -/
def dtSetTable (dt : DTables) (k : String × String) (g : Grid) : DTables :=
  dt.map (fun e => if e.1 = k then (e.1, (e.2.1, g)) else e)

/-- Cell of the stored table of `k` (`""` when the key is absent). -/
def dtCell (dt : DTables) (k : String × String) (day slot : String) : String :=
  match dtLookup dt k with
  | some p => p.2.cell day slot
  | none => ""

/-- Slot-key list of the stored table of `k` (`[]` when the key is absent). -/
def dtSlots (dt : DTables) (k : String × String) : List String :=
  match dtLookup dt k with
  | some p => p.2.slots
  | none => []

/-- The holiday sentinel written into division grids:
`f"{FREE_DAY_LABEL} (Sem{sem} Div{div})"`. -/
def mkSentinel (sem div : String) : String :=
  FREE_DAY_LABEL ++ " (Sem" ++ sem ++ " Div" ++ div ++ ")"

/-- The holiday pre-fill inside `ensure_div_table`: for each recorded holiday
day overwrite every non-inert slot with the sentinel. -/
def markHolidayTeaching (tbl : Grid) (div_shift sem div : String)
    (holidays : List String) : Grid :=
  holidays.foldl (fun t hday =>
    (SHIFT_SLOTS div_shift).foldl (fun t2 slot =>
      if isInert slot then t2 else setCell t2 hday slot (mkSentinel sem div)) t) tbl

/-- `ensure_div_table`: create the division grid on first reference (applying
the recorded holidays), return the stored table and shift. -/
def ensure_div_table (fds : Fds) (dtables : DTables) (sem div div_shift : String) :
    Grid × String × DTables :=
  match dtLookup dtables (sem, div) with
  | some (sh, tbl) => (tbl, sh, dtables)
  | none =>
      let tbl := markHolidayTeaching (empty_table_for_shift div_shift) div_shift sem div
        (fdsGet fds sem div)
      (tbl, div_shift, dtables ++ [((sem, div), (div_shift, tbl))])

/-! ## PRNG model

`random.sample(DAYS, len(DAYS))` draws a day order from the process-wide PRNG
seeded once per run (`random.seed(7)`).  The embedding carries the seed as the
deterministic stream of day orders it determines, together with a cursor; each
call to `sample` consumes the next order, exactly where the source calls
`random.sample`. -/

structure Rng where
  fn : Nat → List String
  idx : Nat

def sample (r : Rng) : List String × Rng :=
  (r.fn r.idx, { r with idx := r.idx + 1 })

/-- A day order drawn from the stream is a permutation of `DAYS`
(`random.sample(DAYS, len(DAYS))` always is). -/
def RngWF (r : Rng) : Prop := ∀ n, (r.fn n).Perm DAYS

/-! ## Placement results

Each placement operation returns the slots it committed (so that theorems can
speak about the placement) together with the updated grids; on the `False`
path of the source it returns `none` and the untouched grids. -/

structure Placement where
  fday : String
  fslot : String
  dday : String
  dslot : String
deriving DecidableEq, Repr

structure LabPlacement where
  fday : String
  fs1 : String
  fs2 : String
  dday : String
  ds1 : String
  ds2 : String
deriving DecidableEq, Repr

structure TheoryResult where
  placed : Option Placement
  ftbl : Grid
  dtbl : Grid
  rng : Rng

structure LabResult where
  placed : Option LabPlacement
  ftbl : Grid
  dtbl : Grid
  rng : Rng

/-- Faculty-grid theory text: `f"{subject} (Sem{sem} Div{div})"`. -/
def mkTheoryFac (subject sem div : String) : String :=
  subject ++ " (Sem" ++ sem ++ " Div" ++ div ++ ")"

/-- Division-grid theory text: `f"{subject} ({fname})"`. -/
def mkTheoryDiv (subject fname : String) : String :=
  subject ++ " (" ++ fname ++ ")"

/-- Faculty-grid lab text: `f"{subject} Lab (Sem{sem} Div{div}) [{batch}]"`. -/
def mkLabFac (subject sem div batch : String) : String :=
  subject ++ " Lab (Sem" ++ sem ++ " Div" ++ div ++ ") [" ++ batch ++ "]"

/-- Division-grid lab text: `f"{subject} Lab ({fname}) [{batch}]"`. -/
def mkLabDiv (subject fname batch : String) : String :=
  subject ++ " Lab (" ++ fname ++ ") [" ++ batch ++ "]"

/-! ## Lock placer -/

/-- The inner two loops of `lock_theory` on one day: first faculty teaching
slot and division teaching slot that are free, canonically equivalent and
shift-admissible, in shift sequence order. -/
def theory_inner_scan (ftbl dtbl : Grid) (fshift dshift day : String) :
    Option (String × String) :=
  (SHIFT_SLOTS fshift).findSome? (fun fs =>
    if isInert fs then none
    else if !free_slot ftbl day fs then none
    else (SHIFT_SLOTS dshift).findSome? (fun ds =>
      if isInert ds then none
      else if !free_slot dtbl day ds then none
      else if !slots_equivalent fshift fs dshift ds then none
      else if !division_slot_allowed_for_faculty fshift dshift ds then none
      else some (fs, ds)))

/-- One scan over a day order for `lock_theory`.  Attempt A runs it with the
duplication guards (`avoid_dup`) and the holiday guard; Attempt B (the
fallback in the source, which repeats the loops without any of the three
guard lines) runs it with both flags off. -/
def theory_day_scan (fds : Fds) (ftbl dtbl : Grid)
    (fshift dshift sem div subject : String) (avoid_dup holiday_check : Bool)
    (days : List String) : Option (String × String × String) :=
  days.findSome? (fun day =>
    if avoid_dup && day_has_division dtbl day sem div then none
    else if avoid_dup && day_has_subject dtbl day subject then none
    else if holiday_check && is_division_holiday fds sem div day then none
    else (theory_inner_scan ftbl dtbl fshift dshift day).map (fun p => (day, p.1, p.2)))

/-- `lock_theory`: Attempt A over a fresh random day order with guards, then
Attempt B over a second fresh order without them; on a match write the two
cells and succeed, otherwise leave both grids untouched and fail. -/
def lock_theory (fds : Fds) (ftbl dtbl : Grid)
    (fshift dshift fname sem div subject : String) (avoid_dup : Bool) (rng : Rng) :
    TheoryResult :=
  match theory_day_scan fds ftbl dtbl fshift dshift sem div subject avoid_dup true
    (sample rng).1 with
  | some (day, fs, ds) =>
      { placed := some ⟨day, fs, day, ds⟩
        ftbl := setCell ftbl day fs (mkTheoryFac subject sem div)
        dtbl := setCell dtbl day ds (mkTheoryDiv subject fname)
        rng := (sample rng).2 }
  | none =>
      match theory_day_scan fds ftbl dtbl fshift dshift sem div subject false false
        (sample (sample rng).2).1 with
      | some (day, fs, ds) =>
          { placed := some ⟨day, fs, day, ds⟩
            ftbl := setCell ftbl day fs (mkTheoryFac subject sem div)
            dtbl := setCell dtbl day ds (mkTheoryDiv subject fname)
            rng := (sample (sample rng).2).2 }
      | none =>
          { placed := none, ftbl := ftbl, dtbl := dtbl, rng := (sample (sample rng).2).2 }

/-- The inner division-pair loop shared by the lab passes: first free division
pair that is pairwise canonically equivalent to the faculty pair and
shift-admissible. -/
def lab_dpair_scan (dtbl : Grid) (fshift dshift fs1 fs2 : String)
    (dpairs : List (String × String)) (dday : String) : Option (String × String) :=
  dpairs.findSome? (fun dp =>
    if !free_pair dtbl dday dp.1 dp.2 then none
    else if !pair_slots_equivalent fshift fs1 fs2 dshift dp.1 dp.2 then none
    else if !division_pair_allowed_for_faculty fshift dshift dp then none
    else some dp)

/-- The strict (same-day) scan of `lock_lab` over one day order. -/
def lab_strict_scan (fds : Fds) (ftbl dtbl : Grid)
    (fshift dshift sem div subject : String) (avoid_dup : Bool)
    (fpairs dpairs : List (String × String)) (days : List String) :
    Option (String × String × String × String × String) :=
  days.findSome? (fun day =>
    if avoid_dup && day_has_division dtbl day sem div then none
    else if avoid_dup && day_has_subject dtbl day subject then none
    else if is_division_holiday fds sem div day then none
    else fpairs.findSome? (fun fp =>
      if !free_pair ftbl day fp.1 fp.2 then none
      else (lab_dpair_scan dtbl fshift dshift fp.1 fp.2 dpairs day).map
        (fun dp => (day, fp.1, fp.2, dp.1, dp.2))))

/-- The relaxed division-day scan of the `lock_lab` fallback: over a fresh
random division-day order, skipping days that already carry the division when
`avoid_dup` (the fallback keeps only this guard). -/
def lab_relax_dscan (dtbl : Grid) (fshift dshift sem div fs1 fs2 : String)
    (avoid_dup : Bool) (dpairs : List (String × String)) (ddays : List String) :
    Option (String × String × String) :=
  ddays.findSome? (fun dday =>
    if avoid_dup && day_has_division dtbl dday sem div then none
    else (lab_dpair_scan dtbl fshift dshift fs1 fs2 dpairs dday).map
      (fun dp => (dday, dp.1, dp.2)))

/-- The faculty-pair loop of the `lock_lab` fallback on one faculty day: for
each free faculty pair, draw a fresh division-day order (the source evaluates
`random.sample` at the head of the inner loop) and scan it. -/
def lab_relax_fpairs (fds : Fds) (ftbl dtbl : Grid)
    (fshift dshift sem div : String) (avoid_dup : Bool)
    (dpairs : List (String × String)) (fday : String) :
    List (String × String) → Rng → Option LabPlacement × Rng
  | [], rng => (none, rng)
  | fp :: rest, rng =>
      if free_pair ftbl fday fp.1 fp.2 then
        match lab_relax_dscan dtbl fshift dshift sem div fp.1 fp.2 avoid_dup dpairs
          (sample rng).1 with
        | some (dday, ds1, ds2) => (some ⟨fday, fp.1, fp.2, dday, ds1, ds2⟩, (sample rng).2)
        | none => lab_relax_fpairs fds ftbl dtbl fshift dshift sem div avoid_dup dpairs
            fday rest (sample rng).2
      else lab_relax_fpairs fds ftbl dtbl fshift dshift sem div avoid_dup dpairs fday rest rng

/-- The faculty-day loop of the `lock_lab` fallback. -/
def lab_relax_fscan (fds : Fds) (ftbl dtbl : Grid)
    (fshift dshift sem div : String) (avoid_dup : Bool)
    (fpairs dpairs : List (String × String)) :
    List String → Rng → Option LabPlacement × Rng
  | [], rng => (none, rng)
  | fday :: rest, rng =>
      let c := lab_relax_fpairs fds ftbl dtbl fshift dshift sem div avoid_dup dpairs fday fpairs rng
      match c.1 with
      | some lp => (some lp, c.2)
      | none => lab_relax_fscan fds ftbl dtbl fshift dshift sem div avoid_dup fpairs dpairs rest c.2

/-- Commit a lab placement: lab text into the first slot of each pair and
`"MERGE"` into the second, on both grids. -/
def writeLab (ftbl dtbl : Grid) (fname sem div subject batch : String)
    (lp : LabPlacement) : Grid × Grid :=
  (setCell (setCell ftbl lp.fday lp.fs1 (mkLabFac subject sem div batch)) lp.fday lp.fs2 "MERGE",
   setCell (setCell dtbl lp.dday lp.ds1 (mkLabDiv subject fname batch)) lp.dday lp.ds2 "MERGE")

/-- `lock_lab`: the strict same-day scan over a fresh random day order, then
the relaxed fallback that decouples the faculty day from the division day. -/
def lock_lab (fds : Fds) (ftbl dtbl : Grid)
    (fshift dshift fname sem div subject batch_label : String) (avoid_dup : Bool)
    (rng : Rng) : LabResult :=
  match lab_strict_scan fds ftbl dtbl fshift dshift sem div subject avoid_dup
    (consecutive_pairs_for_shift fshift) (consecutive_pairs_for_shift dshift)
    (sample rng).1 with
  | some (day, fs1, fs2, ds1, ds2) =>
      { placed := some ⟨day, fs1, fs2, day, ds1, ds2⟩
        ftbl := (writeLab ftbl dtbl fname sem div subject batch_label
          ⟨day, fs1, fs2, day, ds1, ds2⟩).1
        dtbl := (writeLab ftbl dtbl fname sem div subject batch_label
          ⟨day, fs1, fs2, day, ds1, ds2⟩).2
        rng := (sample rng).2 }
  | none =>
      match (lab_relax_fscan fds ftbl dtbl fshift dshift sem div avoid_dup
        (consecutive_pairs_for_shift fshift) (consecutive_pairs_for_shift dshift)
        (sample (sample rng).2).1 (sample (sample rng).2).2).1 with
      | some lp =>
          { placed := some lp
            ftbl := (writeLab ftbl dtbl fname sem div subject batch_label lp).1
            dtbl := (writeLab ftbl dtbl fname sem div subject batch_label lp).2
            rng := (lab_relax_fscan fds ftbl dtbl fshift dshift sem div avoid_dup
              (consecutive_pairs_for_shift fshift) (consecutive_pairs_for_shift dshift)
              (sample (sample rng).2).1 (sample (sample rng).2).2).2 }
      | none =>
          { placed := none, ftbl := ftbl, dtbl := dtbl
            rng := (lab_relax_fscan fds ftbl dtbl fshift dshift sem div avoid_dup
              (consecutive_pairs_for_shift fshift) (consecutive_pairs_for_shift dshift)
              (sample (sample rng).2).1 (sample (sample rng).2).2).2 }

/-! ## Force placer -/

/-- The teaching-slot lists `fslots` / `dslots` computed at the head of the
force passes. -/
def teachingSlots (shift : String) : List String :=
  (SHIFT_SLOTS shift).filter (fun s => !isInert s)

structure ForceTheoryResult where
  placed : Option Placement
  ftbl : Grid
  dtbl : Grid

structure ForceLabResult where
  placed : Option LabPlacement
  ftbl : Grid
  dtbl : Grid

/-- The tight (same-day, holiday-honoring) scan of `force_place_theory`. -/
def force_theory_tight_scan (fds : Fds) (ftbl dtbl : Grid)
    (fshift dshift sem div : String) : Option Placement :=
  DAYS.findSome? (fun day =>
    if is_division_holiday fds sem div day then none
    else (teachingSlots fshift).findSome? (fun fs =>
      if !free_slot ftbl day fs then none
      else (teachingSlots dshift).findSome? (fun ds =>
        if !free_slot dtbl day ds then none
        else if !slots_equivalent fshift fs dshift ds then none
        else if !division_slot_allowed_for_faculty fshift dshift ds then none
        else some ⟨day, fs, day, ds⟩)))

/-- The relaxed (decoupled-day, no-holiday) scan of `force_place_theory`. -/
def force_theory_relax_scan (ftbl dtbl : Grid) (fshift dshift : String) :
    Option Placement :=
  DAYS.findSome? (fun dday =>
    (teachingSlots dshift).findSome? (fun ds =>
      if !free_slot dtbl dday ds then none
      else DAYS.findSome? (fun fday =>
        (teachingSlots fshift).findSome? (fun fs =>
          if !free_slot ftbl fday fs then none
          else if !slots_equivalent fshift fs dshift ds then none
          else if !division_slot_allowed_for_faculty fshift dshift ds then none
          else some ⟨fday, fs, dday, ds⟩))))

/-- `force_place_theory`: tight pass in fixed day order honoring holidays,
then the relaxed pass decoupling the faculty day from the division day (no
holiday guard).  Deterministic: no PRNG draw. -/
def force_place_theory (fds : Fds) (ftbl dtbl : Grid)
    (fshift dshift fname sem div subject : String) : ForceTheoryResult :=
  match (match force_theory_tight_scan fds ftbl dtbl fshift dshift sem div with
         | some p => some p
         | none => force_theory_relax_scan ftbl dtbl fshift dshift) with
  | some p =>
      { placed := some p
        ftbl := setCell ftbl p.fday p.fslot (mkTheoryFac subject sem div)
        dtbl := setCell dtbl p.dday p.dslot (mkTheoryDiv subject fname) }
  | none => { placed := none, ftbl := ftbl, dtbl := dtbl }

/-- The tight (same-day, holiday-honoring) scan of `force_place_lab`. -/
def force_lab_tight_scan (fds : Fds) (ftbl dtbl : Grid)
    (fshift dshift sem div : String) (fpairs dpairs : List (String × String)) :
    Option LabPlacement :=
  DAYS.findSome? (fun day =>
    if is_division_holiday fds sem div day then none
    else fpairs.findSome? (fun fp =>
      if !free_pair ftbl day fp.1 fp.2 then none
      else (lab_dpair_scan dtbl fshift dshift fp.1 fp.2 dpairs day).map
        (fun dp => ⟨day, fp.1, fp.2, day, dp.1, dp.2⟩)))

/-- The relaxed scan of `force_place_lab`: decoupled days, no holiday guard
and (faithful to the source) no shift-admissibility check. -/
def force_lab_relax_scan (ftbl dtbl : Grid) (fshift dshift : String)
    (fpairs dpairs : List (String × String)) : Option LabPlacement :=
  DAYS.findSome? (fun dday =>
    dpairs.findSome? (fun dp =>
      if !free_pair dtbl dday dp.1 dp.2 then none
      else DAYS.findSome? (fun fday =>
        fpairs.findSome? (fun fp =>
          if !free_pair ftbl fday fp.1 fp.2 then none
          else if !pair_slots_equivalent fshift fp.1 fp.2 dshift dp.1 dp.2 then none
          else some ⟨fday, fp.1, fp.2, dday, dp.1, dp.2⟩))))

/-- `force_place_lab`: tight pass then relaxed pass over consecutive pairs. -/
def force_place_lab (fds : Fds) (ftbl dtbl : Grid)
    (fshift dshift fname sem div subject batch_label : String) : ForceLabResult :=
  match (match force_lab_tight_scan fds ftbl dtbl fshift dshift sem div
           (consecutive_pairs_for_shift fshift) (consecutive_pairs_for_shift dshift) with
         | some lp => some lp
         | none => force_lab_relax_scan ftbl dtbl fshift dshift
             (consecutive_pairs_for_shift fshift) (consecutive_pairs_for_shift dshift)) with
  | some lp =>
      { placed := some lp
        ftbl := (writeLab ftbl dtbl fname sem div subject batch_label lp).1
        dtbl := (writeLab ftbl dtbl fname sem div subject batch_label lp).2 }
  | none => { placed := none, ftbl := ftbl, dtbl := dtbl }

/-! ## Scheduler driver -/

/-- One entry of a faculty's `Subjects` list.  Python stores a dict whose
type-specific keys are only read on the matching `Type`; the unused fields
default harmlessly. -/
structure SubjectEntry where
  type : String
  semester : String
  division : String
  div_shift : String
  subject : String
  course_code : String := ""
  num_labs : Nat := 0
  batches : List String := []
  batches_grouped : Bool := false
  theory_classes : Nat := 0

structure Faculty where
  name : String
  shift : String
  subjects : List SubjectEntry

/-- A pending task enqueued when a lock placement fails (`Batch` present only
for labs). -/
structure PendingTask where
  ptype : String
  semester : String
  division : String
  div_shift : String
  subject : String
  batch : Option String
  faculty : String
  fshift : String

/-- Call events of the driver, for ordering statements: one `lock` per
`lock_lab` / `lock_theory` call and one `force` per `force_place_*` call,
tagged with the faculty being scheduled. -/
inductive Ev where
  | lock (fac : String)
  | force (fac : String)
deriving DecidableEq, Repr

/-- `apply_free_day_markings_from_inputs`, step 1: the first `Div_Shift`
recorded for each `(sem, div)` across the faculty inputs. -/
def build_div_shift_map (faculties : List Faculty) :
    List ((String × String) × String) :=
  faculties.foldl (fun m f =>
    f.subjects.foldl (fun m2 s =>
      if (m2.find? (fun e => e.1 = (s.semester, s.division))).isSome then m2
      else m2 ++ [((s.semester, s.division), s.div_shift)]) m) []

/-- Overwrite every slot key of `day` with the sentinel
(`for slot in list(dtbl[day].keys()): dtbl[day][slot] = ...`). -/
def mark_all_slots (tbl : Grid) (day sem div : String) : Grid :=
  tbl.slots.foldl (fun t slot => setCell t day slot (mkSentinel sem div)) tbl

/-- `div_shift_map.get(key, "8-3")`. -/
def shiftOf (dsm : List ((String × String) × String)) (k : String × String) : String :=
  match dsm.find? (fun e => e.1 = k) with
  | some e => e.2
  | none => "8-3"

/-- The day loop of one settings entry: fill every slot of every selected day
that is a key of the grid with the sentinel (other days are skipped with a
debug event). -/
def mark_days (sem div : String) (days : List String) (tbl : Grid) : Grid :=
  days.foldl (fun t day =>
    if t.days.contains day then mark_all_slots t day sem div else t) tbl

/-- One settings entry of `apply_free_day_markings_from_inputs`: ensure the
division grid, then pre-mark its selected days. -/
def apply_entry (fds : Fds) (dsm : List ((String × String) × String))
    (dt : DTables) (entry : (String × String) × List String) : DTables :=
  dtSetTable (ensure_div_table fds dt entry.1.1 entry.1.2 (shiftOf dsm entry.1)).2.2
    entry.1
    (mark_days entry.1.1 entry.1.2 entry.2
      (ensure_div_table fds dt entry.1.1 entry.1.2 (shiftOf dsm entry.1)).1)

/-- `apply_free_day_markings_from_inputs`. -/
def apply_free_day_markings_from_inputs (fds : Fds) (dtables : DTables)
    (faculties : List Faculty) : DTables :=
  fds.foldl (apply_entry fds (build_div_shift_map faculties)) dtables

/-- The mutable state threaded through `assign_subjects_for_faculty`:
the faculty's own grid, the division-table store, the PRNG, the faculty-local
pending queue and the trace of placement calls. -/
structure AState where
  ftbl : Grid
  dtables : DTables
  rng : Rng
  pending : List PendingTask
  trace : List Ev

/-- One `lock_lab` call of the lab loop: locate the (already ensured) division
grid, attempt the lock, on failure enqueue the pending task. -/
def lab_attempt (fds : Fds) (fname fshift : String) (e : SubjectEntry)
    (batch : String) (st : AState) : AState :=
  let dtbl :=
    match dtLookup st.dtables (e.semester, e.division) with
    | some p => p.2
    | none => empty_table_for_shift e.div_shift
  let r := lock_lab fds st.ftbl dtbl fshift e.div_shift fname e.semester e.division
    e.subject batch true st.rng
  let pending' :=
    match r.placed with
    | some _ => st.pending
    | none => st.pending ++
        [⟨"Lab", e.semester, e.division, e.div_shift, e.subject, some batch, fname, fshift⟩]
  { ftbl := r.ftbl
    dtables := dtSetTable st.dtables (e.semester, e.division) r.dtbl
    rng := r.rng
    pending := pending'
    trace := st.trace ++ [Ev.lock fname] }

/-- The lab half of the subject loop: ensure the division grid once per entry,
then for each batch (a single pseudo-batch when `Batches_Grouped`) perform
`Num_Labs` lock attempts. -/
def run_lab_entry (fds : Fds) (fname fshift : String) (e : SubjectEntry)
    (st : AState) : AState :=
  let r := ensure_div_table fds st.dtables e.semester e.division e.div_shift
  let st0 := { st with dtables := r.2.2 }
  let batches := if e.batches_grouped then e.batches.take 1 else e.batches
  batches.foldl (fun acc batch =>
    (List.range e.num_labs).foldl (fun acc2 _ => lab_attempt fds fname fshift e batch acc2) acc)
    st0

/-- One `lock_theory` call of the theory loop. -/
def theory_attempt (fds : Fds) (fname fshift : String) (e : SubjectEntry)
    (st : AState) : AState :=
  let dtbl :=
    match dtLookup st.dtables (e.semester, e.division) with
    | some p => p.2
    | none => empty_table_for_shift e.div_shift
  let r := lock_theory fds st.ftbl dtbl fshift e.div_shift fname e.semester e.division
    e.subject true st.rng
  let pending' :=
    match r.placed with
    | some _ => st.pending
    | none => st.pending ++
        [⟨"Theory", e.semester, e.division, e.div_shift, e.subject, none, fname, fshift⟩]
  { ftbl := r.ftbl
    dtables := dtSetTable st.dtables (e.semester, e.division) r.dtbl
    rng := r.rng
    pending := pending'
    trace := st.trace ++ [Ev.lock fname] }

/-- The theory half of the subject loop. -/
def run_theory_entry (fds : Fds) (fname fshift : String) (e : SubjectEntry)
    (st : AState) : AState :=
  let r := ensure_div_table fds st.dtables e.semester e.division e.div_shift
  let st0 := { st with dtables := r.2.2 }
  (List.range e.theory_classes).foldl (fun acc _ => theory_attempt fds fname fshift e acc) st0

/-- Drain one pending task through the matching force pass
(`fshift_task = task.get("FShift", fshift)`, always present; theory tasks have
no batch, lab tasks always do — Python would format a missing one as
`"None"`). -/
def force_task (fds : Fds) (fname : String) (task : PendingTask)
    (st : AState) : AState :=
  let r0 := ensure_div_table fds st.dtables task.semester task.division task.div_shift
  let dtbl := r0.1
  let dt := r0.2.2
  if task.ptype = "Theory" then
    let r := force_place_theory fds st.ftbl dtbl task.fshift task.div_shift fname
      task.semester task.division task.subject
    { st with
      ftbl := r.ftbl
      dtables := dtSetTable dt (task.semester, task.division) r.dtbl
      trace := st.trace ++ [Ev.force fname] }
  else
    let r := force_place_lab fds st.ftbl dtbl task.fshift task.div_shift fname
      task.semester task.division task.subject (task.batch.getD "None")
    { st with
      ftbl := r.ftbl
      dtables := dtSetTable dt (task.semester, task.division) r.dtbl
      trace := st.trace ++ [Ev.force fname] }

/-- The engine state across faculties. -/
structure EngineState where
  ftables : List (String × Grid)
  dtables : DTables
  rng : Rng
  trace : List Ev

/-- `ftables[fname]` lookup. -/
def ftLookup (ft : List (String × Grid)) (n : String) : Option Grid :=
  match ft.find? (fun e => e.1 = n) with
  | some e => some e.2
  | none => none

/-- Store a faculty grid back under its name. -/
def ftSetTable (ft : List (String × Grid)) (n : String) (g : Grid) :
    List (String × Grid) :=
  ft.map (fun e => if e.1 = n then (e.1, g) else e)

/-- The subject loops of `assign_subjects_for_faculty`: all `Lab` entries,
then all `Theory` entries. -/
def assign_locks (fds : Fds) (fname fshift : String) (subjects : List SubjectEntry)
    (a0 : AState) : AState :=
  (subjects.filter (fun s => s.type = "Theory")).foldl
    (fun acc e => run_theory_entry fds fname fshift e acc)
    ((subjects.filter (fun s => s.type = "Lab")).foldl
      (fun acc e => run_lab_entry fds fname fshift e acc) a0)

/-- The pending drain of `assign_subjects_for_faculty`. -/
def assign_drain (fds : Fds) (fname : String) (a : AState) : AState :=
  a.pending.foldl (fun acc task => force_task fds fname task acc) a

/-- Store the faculty grid back and repackage the engine state. -/
def finishAssign (ftables0 : List (String × Grid)) (fname : String)
    (a3 : AState) : EngineState :=
  { ftables := ftSetTable ftables0 fname a3.ftbl
    dtables := a3.dtables
    rng := a3.rng
    trace := a3.trace }

/-- `assign_subjects_for_faculty`: ensure the faculty grid, lock all lab
entries, then all theory entries, then drain the faculty-local pending queue
through the force passes, and store the faculty grid back. -/
def assign_subjects_for_faculty (fds : Fds) (f : Faculty) (st : EngineState) :
    EngineState :=
  match ftLookup st.ftables f.name with
  | some g0 =>
      finishAssign st.ftables f.name
        (assign_drain fds f.name (assign_locks fds f.name f.shift f.subjects
          ⟨g0, st.dtables, st.rng, [], st.trace⟩))
  | none =>
      finishAssign (st.ftables ++ [(f.name, empty_table_for_shift f.shift)]) f.name
        (assign_drain fds f.name (assign_locks fds f.name f.shift f.subjects
          ⟨empty_table_for_shift f.shift, st.dtables, st.rng, [], st.trace⟩))

/-- `main` / `generate`: pre-mark the free days, then schedule each faculty in
input order.  `fds` is the `FREE_DAY_SETTINGS` built from the input; `rng` is
the day-order stream determined by the seed. -/
def run_engine (faculties : List Faculty) (fds : Fds) (rng : Rng) : EngineState :=
  let dt0 := apply_free_day_markings_from_inputs fds [] faculties
  faculties.foldl (fun st f => assign_subjects_for_faculty fds f st)
    ⟨[], dt0, rng, []⟩

/-! ## Basic lemmas: vacancy, cell writes, scans -/

/-- A cell counts as available to the engine iff its stripped value is empty
(the condition `free_slot` actually tests). -/
def vacant (v : String) : Bool := pyStrip v == ""

theorem findSome?_inv {α β : Type} {f : α → Option β} {l : List α} {b : β}
    (h : l.findSome? f = some b) : ∃ a, a ∈ l ∧ f a = some b := by
  induction l with
  | nil => simp [List.findSome?] at h
  | cons x t ih =>
      rw [List.findSome?] at h
      cases hx : f x with
      | some v => rw [hx] at h; exact ⟨x, by simp, by rw [hx, ← h]⟩
      | none =>
          rw [hx] at h
          obtain ⟨a, ha, hfa⟩ := ih h
          exact ⟨a, by simp [ha], hfa⟩

/-- `free_slot` is exactly the vacancy test: every branch taken on a
non-empty stripped value returns `false`. -/
theorem free_slot_eq_vacant (tbl : Grid) (d s : String) :
    free_slot tbl d s = vacant (tbl.cell d s) := by
  unfold free_slot vacant
  by_cases h : pyStrip (tbl.cell d s) = ""
  · simp [h]
  · simp only [h, if_false, beq_iff_eq]
    split <;> simp [h]

theorem pyStrip_eq_empty_iff (v : String) :
    pyStrip v = "" ↔ ∀ c ∈ v.data, isPyWS c = true := by
  unfold pyStrip
  rw [show ("" : String) = ⟨[]⟩ from rfl, String.ext_iff]
  simp only [List.reverse_eq_nil_iff, List.dropWhile_eq_nil_iff, List.mem_reverse]
  constructor
  · intro h c hc
    rcases List.mem_append.1
      ((List.takeWhile_append_dropWhile (p := isPyWS) (l := v.data)) ▸ hc) with hc1 | hc1
    · exact List.mem_takeWhile_imp hc1
    · exact h c hc1
  · intro h c hc
    exact h c ((List.dropWhile_sublist isPyWS).mem hc)

/-- A string containing a non-whitespace character is not vacant. -/
theorem vacant_false_of_mem {v : String} {c : Char} (hc : c ∈ v.data)
    (hw : isPyWS c = false) : vacant v = false := by
  unfold vacant
  rw [beq_eq_false_iff_ne]
  intro h
  have := (pyStrip_eq_empty_iff v).1 h c hc
  rw [hw] at this
  exact Bool.false_ne_true this

theorem vacant_mkTheoryFac (subject sem div : String) :
    vacant (mkTheoryFac subject sem div) = false := by
  refine vacant_false_of_mem (c := ')') ?_ (by decide)
  unfold mkTheoryFac
  simp [String.data_append]

theorem vacant_mkTheoryDiv (subject fname : String) :
    vacant (mkTheoryDiv subject fname) = false := by
  refine vacant_false_of_mem (c := ')') ?_ (by decide)
  unfold mkTheoryDiv
  simp [String.data_append]

theorem vacant_mkLabFac (subject sem div batch : String) :
    vacant (mkLabFac subject sem div batch) = false := by
  refine vacant_false_of_mem (c := ']') ?_ (by decide)
  unfold mkLabFac
  simp [String.data_append]

theorem vacant_mkLabDiv (subject fname batch : String) :
    vacant (mkLabDiv subject fname batch) = false := by
  refine vacant_false_of_mem (c := ']') ?_ (by decide)
  unfold mkLabDiv
  simp [String.data_append]

theorem vacant_merge : vacant "MERGE" = false := by decide

theorem vacant_mkSentinel (sem div : String) :
    vacant (mkSentinel sem div) = false := by
  refine vacant_false_of_mem (c := 'C') ?_ (by decide)
  unfold mkSentinel FREE_DAY_LABEL
  simp [String.data_append]

/-- Reading a written grid. -/
theorem setCell_cell (g : Grid) (day slot v d s : String) :
    (setCell g day slot v).cell d s = if d = day ∧ s = slot then v else g.cell d s := rfl

theorem setCell_slots (g : Grid) (day slot v : String) :
    (setCell g day slot v).slots = g.slots := rfl

theorem setCell_days (g : Grid) (day slot v : String) :
    (setCell g day slot v).days = g.days := rfl

theorem setCell_cell_ne (g : Grid) {day slot d s : String} (v : String)
    (h : ¬(d = day ∧ s = slot)) : (setCell g day slot v).cell d s = g.cell d s := by
  rw [setCell_cell, if_neg h]

/-! ## Grid evolution

`GridEvolve g g'` captures what every scheduling write does to a grid: the
key structure is untouched, and a cell changes only if it was free before and
holds a non-vacant value afterwards.  Together with `GridWF` (no grid of the
engine ever holds a whitespace-only non-empty cell) this yields the
append-only cell discipline. -/

def GridWF (g : Grid) : Prop :=
  ∀ d s, vacant (g.cell d s) = true → g.cell d s = ""

def GridEvolve (g g' : Grid) : Prop :=
  g'.days = g.days ∧ g'.slots = g.slots ∧
  ∀ d s, g'.cell d s ≠ g.cell d s →
    free_slot g d s = true ∧ vacant (g'.cell d s) = false

theorem GridEvolve.refl (g : Grid) : GridEvolve g g :=
  ⟨rfl, rfl, fun _ _ h => absurd rfl h⟩

theorem GridEvolve.trans {g1 g2 g3 : Grid} (h12 : GridEvolve g1 g2)
    (h23 : GridEvolve g2 g3) : GridEvolve g1 g3 := by
  obtain ⟨hd12, hs12, hc12⟩ := h12
  obtain ⟨hd23, hs23, hc23⟩ := h23
  refine ⟨hd23.trans hd12, hs23.trans hs12, fun d s hne => ?_⟩
  by_cases h2 : g2.cell d s = g1.cell d s
  · have hne23 : g3.cell d s ≠ g2.cell d s := by rw [h2]; exact hne
    obtain ⟨hf, hv⟩ := hc23 d s hne23
    rw [free_slot_eq_vacant] at hf ⊢
    rw [h2] at hf
    exact ⟨hf, hv⟩
  · obtain ⟨hf, hv2⟩ := hc12 d s h2
    refine ⟨hf, ?_⟩
    by_cases h3 : g3.cell d s = g2.cell d s
    · rw [h3]; exact hv2
    · exact (hc23 d s h3).2

/-- With well-formedness, evolution is cell-monotone: a non-empty cell is
never changed. -/
theorem GridEvolve.mono {g g' : Grid} (hwf : GridWF g) (h : GridEvolve g g')
    {d s : String} (hne : g.cell d s ≠ "") : g'.cell d s = g.cell d s := by
  by_contra hch
  obtain ⟨hf, _⟩ := h.2.2 d s hch
  rw [free_slot_eq_vacant] at hf
  exact hne (hwf d s hf)

theorem GridEvolve.wf {g g' : Grid} (hwf : GridWF g) (h : GridEvolve g g') :
    GridWF g' := by
  intro d s hv
  by_cases hch : g'.cell d s = g.cell d s
  · rw [hch] at hv ⊢
    exact hwf d s hv
  · obtain ⟨_, hv'⟩ := h.2.2 d s hch
    rw [hv] at hv'
    exact absurd hv' (by simp)

/-- A single write of a non-vacant value into a free cell. -/
theorem GridEvolve.write1 {g : Grid} {day slot v : String}
    (hfree : free_slot g day slot = true) (hv : vacant v = false) :
    GridEvolve g (setCell g day slot v) := by
  refine ⟨rfl, rfl, fun d s hne => ?_⟩
  rw [setCell_cell] at hne ⊢
  by_cases hp : d = day ∧ s = slot
  · obtain ⟨rfl, rfl⟩ := hp
    simpa [hv] using hfree
  · rw [if_neg hp] at hne
    exact absurd rfl hne

/-- The double write of a lab placement (text then `"MERGE"`) into a free
pair. -/
theorem GridEvolve.write2 {g : Grid} {day s1 s2 v1 v2 : String}
    (hfree : free_pair g day s1 s2 = true) (hv1 : vacant v1 = false)
    (hv2 : vacant v2 = false) :
    GridEvolve g (setCell (setCell g day s1 v1) day s2 v2) := by
  obtain ⟨hf1, hf2⟩ := by simpa [free_pair] using hfree
  refine ⟨rfl, rfl, fun d s hne => ?_⟩
  rw [setCell_cell, setCell_cell] at hne ⊢
  by_cases hp2 : d = day ∧ s = s2
  · obtain ⟨rfl, rfl⟩ := hp2
    simpa [hv2] using hf2
  · rw [if_neg hp2] at hne ⊢
    by_cases hp1 : d = day ∧ s = s1
    · obtain ⟨rfl, rfl⟩ := hp1
      simpa [hv1] using hf1
    · rw [if_neg hp1] at hne
      exact absurd rfl hne

/-! ## Folded writes -/

/-- Cells under a fold whose step either leaves the cell or writes `v`. -/
theorem foldl_write_stable {α : Type} {f : Grid → α → Grid} {d s v : String}
    (hstep : ∀ t a, (f t a).cell d s = t.cell d s ∨ (f t a).cell d s = v) :
    ∀ (l : List α) (g : Grid),
      (l.foldl f g).cell d s = g.cell d s ∨ (l.foldl f g).cell d s = v := by
  intro l
  induction l with
  | nil => intro g; exact Or.inl rfl
  | cons a t ih =>
      intro g
      rw [List.foldl_cons]
      rcases ih (f g a) with h | h
      · rcases hstep g a with h2 | h2
        · exact Or.inl (h.trans h2)
        · exact Or.inr (h.trans h2)
      · exact Or.inr h

/-- If some element of the fold writes `v` into the cell and every step is
stable, the final cell is `v`. -/
theorem foldl_write_mem {α : Type} {f : Grid → α → Grid} {d s v : String}
    (hstep : ∀ t a, (f t a).cell d s = t.cell d s ∨ (f t a).cell d s = v)
    {a : α} {l : List α} (ha : a ∈ l) (hwrite : ∀ t, (f t a).cell d s = v) :
    ∀ g : Grid, (l.foldl f g).cell d s = v := by
  induction l with
  | nil => exact absurd ha (List.not_mem_nil a)
  | cons b t ih =>
      intro g
      rw [List.foldl_cons]
      rcases List.mem_cons.1 ha with rfl | hat
      · rcases foldl_write_stable hstep t (f g a) with h | h
        · rw [h, hwrite]
        · exact h
      · exact ih hat (f g b)

theorem foldl_preserve {σ α : Type} {f : σ → α → σ} (P : σ → Prop)
    (hstep : ∀ t a, P t → P (f t a)) :
    ∀ (l : List α) (g : σ), P g → P (l.foldl f g) := by
  intro l
  induction l with
  | nil => intro g hg; exact hg
  | cons a t ih => intro g hg; exact ih (f g a) (hstep g a hg)

theorem setCell_wf {g : Grid} {day slot v : String} (hv : vacant v = false)
    (hg : GridWF g) : GridWF (setCell g day slot v) := by
  intro d s
  rw [setCell_cell]
  by_cases hp : d = day ∧ s = slot
  · rw [if_pos hp, hv]
    intro h
    exact absurd h (by simp)
  · rw [if_neg hp]
    exact hg d s

/-- Every slot label of a built-in shift that is inert is non-vacant (it is
its own non-blank text). -/
theorem shift_inert_not_vacant {shift s : String} (hs : s ∈ SHIFT_SLOTS shift)
    (hi : isInert s = true) : vacant s = false := by
  by_cases h83 : shift = "8-3"
  · subst h83
    exact (by decide : ∀ x ∈ SHIFT_SLOTS "8-3", isInert x = true → vacant x = false) s hs hi
  · by_cases h105 : shift = "10-5"
    · subst h105
      exact (by decide : ∀ x ∈ SHIFT_SLOTS "10-5", isInert x = true → vacant x = false) s hs hi
    · have hnil : SHIFT_SLOTS shift = [] := by
        unfold SHIFT_SLOTS
        rw [if_neg h83, if_neg h105]
      rw [hnil] at hs
      exact absurd hs (List.not_mem_nil _)

theorem empty_table_cell (shift d s : String) :
    (empty_table_for_shift shift).cell d s =
      if d ∈ DAYS ∧ s ∈ SHIFT_SLOTS shift then (if isInert s then s else "") else "" := rfl

theorem empty_table_wf (shift : String) : GridWF (empty_table_for_shift shift) := by
  intro d s
  rw [empty_table_cell]
  by_cases hin : d ∈ DAYS ∧ s ∈ SHIFT_SLOTS shift
  · rw [if_pos hin]
    by_cases hi : isInert s
    · rw [if_pos hi, shift_inert_not_vacant hin.2 hi]
      intro h
      exact absurd h (by simp)
    · rw [if_neg hi]
      intro _
      rfl
  · rw [if_neg hin]
    intro _
    rfl

/-! ### `markHolidayTeaching` (inside `ensure_div_table`) -/

theorem markHolidayTeaching_struct (tbl : Grid) (div_shift sem div : String)
    (holidays : List String) :
    (markHolidayTeaching tbl div_shift sem div holidays).days = tbl.days ∧
    (markHolidayTeaching tbl div_shift sem div holidays).slots = tbl.slots := by
  unfold markHolidayTeaching
  refine foldl_preserve (fun (t : Grid) => t.days = tbl.days ∧ t.slots = tbl.slots) ?_ _ _ ⟨rfl, rfl⟩
  intro t a ht
  refine foldl_preserve (fun (t2 : Grid) => t2.days = tbl.days ∧ t2.slots = tbl.slots) ?_ _ _ ht
  intro t2 b ht2
  by_cases hb : isInert b
  · simpa [hb] using ht2
  · simpa [hb] using ht2

theorem markHolidayTeaching_wf {tbl : Grid} (div_shift sem div : String)
    (holidays : List String) (hg : GridWF tbl) :
    GridWF (markHolidayTeaching tbl div_shift sem div holidays) := by
  unfold markHolidayTeaching
  refine foldl_preserve GridWF ?_ _ _ hg
  intro t a ht
  refine foldl_preserve GridWF ?_ _ _ ht
  intro t2 b ht2
  by_cases hb : isInert b
  · simpa [hb] using ht2
  · simpa [hb] using setCell_wf (vacant_mkSentinel sem div) ht2

theorem markHolidayTeaching_cell_hit (tbl : Grid) {div_shift : String}
    (sem div : String) {holidays : List String} {day slot : String}
    (hd : day ∈ holidays) (hs : slot ∈ SHIFT_SLOTS div_shift)
    (hni : isInert slot = false) :
    (markHolidayTeaching tbl div_shift sem div holidays).cell day slot =
      mkSentinel sem div := by
  unfold markHolidayTeaching
  refine foldl_write_mem (v := mkSentinel sem div) ?_ hd ?_ tbl
  · intro t a
    refine foldl_write_stable ?_ _ _
    intro t2 b
    by_cases hb : isInert b
    · simp [hb]
    · rw [if_neg (by simp [hb]), setCell_cell]
      by_cases hp : day = a ∧ slot = b
      · exact Or.inr (by rw [if_pos hp])
      · exact Or.inl (by rw [if_neg hp])
  · intro t
    refine foldl_write_mem (v := mkSentinel sem div) ?_ hs ?_ t
    · intro t2 b
      by_cases hb : isInert b
      · simp [hb]
      · rw [if_neg (by simp [hb]), setCell_cell]
        by_cases hp : day = day ∧ slot = b
        · exact Or.inr (by rw [if_pos hp])
        · exact Or.inl (by rw [if_neg hp])
    · intro t2
      rw [if_neg (by simp [hni]), setCell_cell, if_pos ⟨rfl, rfl⟩]

/-- Any cell `markHolidayTeaching` changes becomes the sentinel. -/
theorem markHolidayTeaching_cell_cases (tbl : Grid) (div_shift sem div : String)
    (holidays : List String) (d s : String) :
    (markHolidayTeaching tbl div_shift sem div holidays).cell d s = tbl.cell d s ∨
    (markHolidayTeaching tbl div_shift sem div holidays).cell d s =
      mkSentinel sem div := by
  unfold markHolidayTeaching
  refine foldl_write_stable ?_ _ _
  intro t a
  refine foldl_write_stable ?_ _ _
  intro t2 b
  by_cases hb : isInert b
  · simp [hb]
  · rw [if_neg (by simp [hb]), setCell_cell]
    by_cases hp : d = a ∧ s = b
    · exact Or.inr (by rw [if_pos hp])
    · exact Or.inl (by rw [if_neg hp])

/-! ### `mark_all_slots` (inside `apply_free_day_markings_from_inputs`) -/

theorem mark_all_slots_struct (tbl : Grid) (day sem div : String) :
    (mark_all_slots tbl day sem div).days = tbl.days ∧
    (mark_all_slots tbl day sem div).slots = tbl.slots := by
  unfold mark_all_slots
  exact foldl_preserve (f := fun t slot => setCell t day slot (mkSentinel sem div))
    (fun (t : Grid) => t.days = tbl.days ∧ t.slots = tbl.slots)
    (fun t a ht => ht) _ _ ⟨rfl, rfl⟩

theorem mark_all_slots_wf {tbl : Grid} (day sem div : String) (hg : GridWF tbl) :
    GridWF (mark_all_slots tbl day sem div) := by
  unfold mark_all_slots
  exact foldl_preserve GridWF
    (fun t a ht => setCell_wf (vacant_mkSentinel sem div) ht) _ _ hg

theorem mark_all_slots_cell_hit (tbl : Grid) (sem div : String) {day slot : String}
    (hs : slot ∈ tbl.slots) :
    (mark_all_slots tbl day sem div).cell day slot = mkSentinel sem div := by
  unfold mark_all_slots
  refine foldl_write_mem (v := mkSentinel sem div) ?_ hs ?_ tbl
  · intro t2 b
    rw [setCell_cell]
    by_cases hp : day = day ∧ slot = b
    · exact Or.inr (by rw [if_pos hp])
    · exact Or.inl (by rw [if_neg hp])
  · intro t2
    rw [setCell_cell, if_pos ⟨rfl, rfl⟩]

theorem mark_all_slots_cell_cases (tbl : Grid) (day sem div d s : String) :
    (mark_all_slots tbl day sem div).cell d s = tbl.cell d s ∨
    (mark_all_slots tbl day sem div).cell d s = mkSentinel sem div := by
  unfold mark_all_slots
  refine foldl_write_stable ?_ _ _
  intro t2 b
  rw [setCell_cell]
  by_cases hp : d = day ∧ s = b
  · exact Or.inr (by rw [if_pos hp])
  · exact Or.inl (by rw [if_neg hp])

/-! ## Store lookup lemmas -/

theorem dtLookup_append (dt : DTables) (e : (String × String) × (String × Grid))
    (k : String × String) :
    dtLookup (dt ++ [e]) k =
      match dtLookup dt k with
      | some v => some v
      | none => if e.1 = k then some e.2 else none := by
  induction dt with
  | nil =>
      unfold dtLookup
      simp only [List.nil_append, List.find?]
      by_cases h : e.1 = k
      · simp [h]
      · simp [h]
  | cons a t ih =>
      unfold dtLookup at ih ⊢
      simp only [List.cons_append, List.find?]
      by_cases h : a.1 = k
      · simp [h]
      · simpa [h] using ih

/-- `find?` over a key-preserving conditional update commutes with lookup. -/
theorem find?_map_ite {κ β : Type} [DecidableEq κ] (l : List (κ × β)) (k k' : κ)
    (upd : κ × β → κ × β) (hupd : ∀ e, (upd e).1 = e.1) :
    (l.map (fun e => if e.1 = k then upd e else e)).find? (fun e => e.1 = k') =
      (l.find? (fun e => e.1 = k')).map (fun e => if e.1 = k then upd e else e) := by
  induction l with
  | nil => rfl
  | cons a t ih =>
      rw [List.map_cons]
      by_cases hpa : a.1 = k'
      · have h1 : ((if a.1 = k then upd a else a).1 = k') := by
          by_cases hk : a.1 = k
          · rw [if_pos hk, hupd, hpa]
          · rw [if_neg hk, hpa]
        rw [List.find?_cons_of_pos _ (by simpa using h1),
          List.find?_cons_of_pos _ (by simpa using hpa), Option.map_some']
      · have h1 : ¬((if a.1 = k then upd a else a).1 = k') := by
          by_cases hk : a.1 = k
          · rw [if_pos hk, hupd]; exact hpa
          · rw [if_neg hk]; exact hpa
        rw [List.find?_cons_of_neg _ (by simpa using h1),
          List.find?_cons_of_neg _ (by simpa using hpa), ih]

theorem dtLookup_setTable_self {dt : DTables} {k : String × String}
    {sh : String} {g0 : Grid} (h : dtLookup dt k = some (sh, g0)) (g : Grid) :
    dtLookup (dtSetTable dt k g) k = some (sh, g) := by
  unfold dtLookup at h
  unfold dtLookup dtSetTable
  rw [find?_map_ite dt k k (fun e => (e.1, (e.2.1, g))) (fun e => rfl)]
  cases hf : dt.find? (fun e => e.1 = k) with
  | none => rw [hf] at h; exact absurd h (by simp)
  | some e =>
      rw [hf] at h
      have hk : e.1 = k := by simpa using List.find?_some hf
      have he : e.2 = (sh, g0) := by simpa using h
      simp [hk, he]

theorem dtLookup_setTable_other {dt : DTables} {k k' : String × String}
    (h : k' ≠ k) (g : Grid) :
    dtLookup (dtSetTable dt k g) k' = dtLookup dt k' := by
  unfold dtLookup dtSetTable
  rw [find?_map_ite dt k k' (fun e => (e.1, (e.2.1, g))) (fun e => rfl)]
  cases hf : dt.find? (fun e => e.1 = k') with
  | none => rfl
  | some e =>
      have hk : e.1 = k' := by simpa using List.find?_some hf
      have : ¬(e.1 = k) := by rw [hk]; exact h
      simp [this]

theorem dtLookup_setTable_none {dt : DTables} {k : String × String}
    (h : dtLookup dt k = none) (g : Grid) :
    dtLookup (dtSetTable dt k g) k = none := by
  unfold dtLookup at h
  unfold dtLookup dtSetTable
  rw [find?_map_ite dt k k (fun e => (e.1, (e.2.1, g))) (fun e => rfl)]
  cases hf : dt.find? (fun e => e.1 = k) with
  | none => rfl
  | some e => rw [hf] at h; exact absurd h (by simp)

theorem ftLookup_append (ft : List (String × Grid)) (e : String × Grid)
    (n : String) :
    ftLookup (ft ++ [e]) n =
      match ftLookup ft n with
      | some v => some v
      | none => if e.1 = n then some e.2 else none := by
  induction ft with
  | nil =>
      unfold ftLookup
      simp only [List.nil_append, List.find?]
      by_cases h : e.1 = n
      · simp [h]
      · simp [h]
  | cons a t ih =>
      unfold ftLookup at ih ⊢
      simp only [List.cons_append, List.find?]
      by_cases h : a.1 = n
      · simp [h]
      · simpa [h] using ih

theorem ftLookup_setTable_self {ft : List (String × Grid)} {n : String}
    {g0 : Grid} (h : ftLookup ft n = some g0) (g : Grid) :
    ftLookup (ftSetTable ft n g) n = some g := by
  unfold ftLookup at h
  unfold ftLookup ftSetTable
  rw [find?_map_ite ft n n (fun e => (e.1, g)) (fun e => rfl)]
  cases hf : ft.find? (fun e => e.1 = n) with
  | none => rw [hf] at h; exact absurd h (by simp)
  | some e =>
      have hk : e.1 = n := by simpa using List.find?_some hf
      simp [hk]

theorem ftLookup_setTable_other {ft : List (String × Grid)} {n n' : String}
    (h : n' ≠ n) (g : Grid) :
    ftLookup (ftSetTable ft n g) n' = ftLookup ft n' := by
  unfold ftLookup ftSetTable
  rw [find?_map_ite ft n n' (fun e => (e.1, g)) (fun e => rfl)]
  cases hf : ft.find? (fun e => e.1 = n') with
  | none => rfl
  | some e =>
      have hk : e.1 = n' := by simpa using List.find?_some hf
      have : ¬(e.1 = n) := by rw [hk]; exact h
      simp [this]

theorem ftLookup_setTable_none {ft : List (String × Grid)} {n : String}
    (h : ftLookup ft n = none) (g : Grid) :
    ftLookup (ftSetTable ft n g) n = none := by
  unfold ftLookup at h
  unfold ftLookup ftSetTable
  rw [find?_map_ite ft n n (fun e => (e.1, g)) (fun e => rfl)]
  cases hf : ft.find? (fun e => e.1 = n) with
  | none => rfl
  | some e => rw [hf] at h; exact absurd h (by simp)

/-! ## Scan inversion lemmas -/

theorem theory_inner_scan_inv {ftbl dtbl : Grid} {fshift dshift day fs ds : String}
    (h : theory_inner_scan ftbl dtbl fshift dshift day = some (fs, ds)) :
    fs ∈ SHIFT_SLOTS fshift ∧ free_slot ftbl day fs = true ∧
    ds ∈ SHIFT_SLOTS dshift ∧ free_slot dtbl day ds = true ∧
    slots_equivalent fshift fs dshift ds = true ∧
    division_slot_allowed_for_faculty fshift dshift ds = true := by
  unfold theory_inner_scan at h
  obtain ⟨fs0, hfmem, hf⟩ := findSome?_inv h
  by_cases h1 : isInert fs0
  · simp [h1] at hf
  rw [if_neg (by simp [h1])] at hf
  by_cases h2 : free_slot ftbl day fs0
  swap
  · simp [h2] at hf
  rw [if_neg (by simp [h2])] at hf
  obtain ⟨ds0, hdmem, hd⟩ := findSome?_inv hf
  by_cases h3 : isInert ds0
  · simp [h3] at hd
  rw [if_neg (by simp [h3])] at hd
  by_cases h4 : free_slot dtbl day ds0
  swap
  · simp [h4] at hd
  rw [if_neg (by simp [h4])] at hd
  by_cases h5 : slots_equivalent fshift fs0 dshift ds0
  swap
  · simp [h5] at hd
  rw [if_neg (by simp [h5])] at hd
  by_cases h6 : division_slot_allowed_for_faculty fshift dshift ds0
  swap
  · simp [h6] at hd
  rw [if_neg (by simp [h6])] at hd
  obtain ⟨rfl, rfl⟩ : fs0 = fs ∧ ds0 = ds := by
    have := hd
    simp only [Option.some.injEq, Prod.mk.injEq] at this
    exact this
  exact ⟨hfmem, h2, hdmem, h4, h5, h6⟩

theorem theory_day_scan_inv {fds : Fds} {ftbl dtbl : Grid}
    {fshift dshift sem div subject : String} {avoid_dup holiday_check : Bool}
    {days : List String} {day fs ds : String}
    (h : theory_day_scan fds ftbl dtbl fshift dshift sem div subject avoid_dup
      holiday_check days = some (day, fs, ds)) :
    day ∈ days ∧ theory_inner_scan ftbl dtbl fshift dshift day = some (fs, ds) := by
  unfold theory_day_scan at h
  obtain ⟨day0, hmem, hf⟩ := findSome?_inv h
  by_cases h1 : avoid_dup && day_has_division dtbl day0 sem div
  · simp [h1] at hf
  rw [if_neg (by simp_all)] at hf
  by_cases h2 : avoid_dup && day_has_subject dtbl day0 subject
  · simp [h2] at hf
  rw [if_neg (by simp_all)] at hf
  by_cases h3 : holiday_check && is_division_holiday fds sem div day0
  · simp [h3] at hf
  rw [if_neg (by simp_all)] at hf
  cases hscan : theory_inner_scan ftbl dtbl fshift dshift day0 with
  | none => rw [hscan] at hf; simp at hf
  | some p =>
      rw [hscan] at hf
      simp only [Option.map_some', Option.some.injEq, Prod.mk.injEq] at hf
      obtain ⟨rfl, h5, h6⟩ := hf
      rw [← h5, ← h6]
      exact ⟨hmem, by rw [hscan]⟩

theorem lab_dpair_scan_inv {dtbl : Grid} {fshift dshift fs1 fs2 : String}
    {dpairs : List (String × String)} {dday ds1 ds2 : String}
    (h : lab_dpair_scan dtbl fshift dshift fs1 fs2 dpairs dday = some (ds1, ds2)) :
    (ds1, ds2) ∈ dpairs ∧ free_pair dtbl dday ds1 ds2 = true ∧
    pair_slots_equivalent fshift fs1 fs2 dshift ds1 ds2 = true ∧
    division_pair_allowed_for_faculty fshift dshift (ds1, ds2) = true := by
  unfold lab_dpair_scan at h
  obtain ⟨dp, hmem, hd⟩ := findSome?_inv h
  by_cases h1 : free_pair dtbl dday dp.1 dp.2
  swap
  · simp [h1] at hd
  rw [if_neg (by simp [h1])] at hd
  by_cases h2 : pair_slots_equivalent fshift fs1 fs2 dshift dp.1 dp.2
  swap
  · simp [h2] at hd
  rw [if_neg (by simp [h2])] at hd
  by_cases h3 : division_pair_allowed_for_faculty fshift dshift dp
  swap
  · simp [h3] at hd
  rw [if_neg (by simp [h3])] at hd
  have hdp : dp = (ds1, ds2) := by simpa using hd
  subst hdp
  exact ⟨hmem, h1, h2, h3⟩

theorem lab_strict_scan_inv {fds : Fds} {ftbl dtbl : Grid}
    {fshift dshift sem div subject : String} {avoid_dup : Bool}
    {fpairs dpairs : List (String × String)} {days : List String}
    {day fs1 fs2 ds1 ds2 : String}
    (h : lab_strict_scan fds ftbl dtbl fshift dshift sem div subject avoid_dup
      fpairs dpairs days = some (day, fs1, fs2, ds1, ds2)) :
    day ∈ days ∧ (fs1, fs2) ∈ fpairs ∧ free_pair ftbl day fs1 fs2 = true ∧
    lab_dpair_scan dtbl fshift dshift fs1 fs2 dpairs day = some (ds1, ds2) := by
  unfold lab_strict_scan at h
  obtain ⟨day0, hmem, hf⟩ := findSome?_inv h
  by_cases h1 : avoid_dup && day_has_division dtbl day0 sem div
  · simp [h1] at hf
  rw [if_neg (by simp_all)] at hf
  by_cases h2 : avoid_dup && day_has_subject dtbl day0 subject
  · simp [h2] at hf
  rw [if_neg (by simp_all)] at hf
  by_cases h3 : is_division_holiday fds sem div day0
  · simp [h3] at hf
  rw [if_neg (by simp [h3])] at hf
  obtain ⟨fp, hfmem, hfp⟩ := findSome?_inv hf
  by_cases h4 : free_pair ftbl day0 fp.1 fp.2
  swap
  · simp [h4] at hfp
  rw [if_neg (by simp [h4])] at hfp
  cases hscan : lab_dpair_scan dtbl fshift dshift fp.1 fp.2 dpairs day0 with
  | none => rw [hscan] at hfp; simp at hfp
  | some dp =>
      rw [hscan] at hfp
      simp only [Option.map_some', Option.some.injEq, Prod.mk.injEq] at hfp
      obtain ⟨rfl, hf1, hf2, hd1, hd2⟩ := hfp
      rw [← hf1, ← hf2]
      refine ⟨hmem, by simpa using hfmem, h4, ?_⟩
      rw [hscan, ← hd1, ← hd2]

theorem lab_relax_dscan_inv {dtbl : Grid} {fshift dshift sem div fs1 fs2 : String}
    {avoid_dup : Bool} {dpairs : List (String × String)} {ddays : List String}
    {dday ds1 ds2 : String}
    (h : lab_relax_dscan dtbl fshift dshift sem div fs1 fs2 avoid_dup dpairs ddays =
      some (dday, ds1, ds2)) :
    dday ∈ ddays ∧ lab_dpair_scan dtbl fshift dshift fs1 fs2 dpairs dday =
      some (ds1, ds2) := by
  unfold lab_relax_dscan at h
  obtain ⟨dday0, hmem, hf⟩ := findSome?_inv h
  by_cases h1 : avoid_dup && day_has_division dtbl dday0 sem div
  · simp [h1] at hf
  rw [if_neg (by simp_all)] at hf
  cases hscan : lab_dpair_scan dtbl fshift dshift fs1 fs2 dpairs dday0 with
  | none => rw [hscan] at hf; simp at hf
  | some dp =>
      rw [hscan] at hf
      simp only [Option.map_some', Option.some.injEq, Prod.mk.injEq] at hf
      obtain ⟨rfl, hd1, hd2⟩ := hf
      rw [← hd1, ← hd2]
      exact ⟨hmem, by rw [hscan]⟩

theorem lab_relax_fpairs_inv {fds : Fds} {ftbl dtbl : Grid}
    {fshift dshift sem div : String} {avoid_dup : Bool}
    {dpairs : List (String × String)} {fday : String}
    {fps : List (String × String)} {rng : Rng} {lp : LabPlacement}
    (h : (lab_relax_fpairs fds ftbl dtbl fshift dshift sem div avoid_dup dpairs
      fday fps rng).1 = some lp) :
    lp.fday = fday ∧ (lp.fs1, lp.fs2) ∈ fps ∧
    free_pair ftbl fday lp.fs1 lp.fs2 = true ∧
    lab_dpair_scan dtbl fshift dshift lp.fs1 lp.fs2 dpairs lp.dday =
      some (lp.ds1, lp.ds2) := by
  induction fps generalizing rng with
  | nil => simp [lab_relax_fpairs] at h
  | cons fp rest ih =>
      rw [lab_relax_fpairs] at h
      by_cases h1 : free_pair ftbl fday fp.1 fp.2
      · rw [if_pos h1] at h
        cases hscan : lab_relax_dscan dtbl fshift dshift sem div fp.1 fp.2 avoid_dup
          dpairs (sample rng).1 with
        | some q =>
            obtain ⟨dday0, ds10, ds20⟩ := q
            rw [hscan] at h
            simp only [Option.some.injEq] at h
            subst h
            obtain ⟨_, hsc⟩ := lab_relax_dscan_inv hscan
            exact ⟨rfl, by simp, h1, hsc⟩
        | none =>
            rw [hscan] at h
            obtain ⟨hfd, hmem, hfree, hsc⟩ := ih h
            exact ⟨hfd, by simp [hmem], hfree, hsc⟩
      · rw [if_neg h1] at h
        obtain ⟨hfd, hmem, hfree, hsc⟩ := ih h
        exact ⟨hfd, by simp [hmem], hfree, hsc⟩

theorem lab_relax_fscan_inv {fds : Fds} {ftbl dtbl : Grid}
    {fshift dshift sem div : String} {avoid_dup : Bool}
    {fpairs dpairs : List (String × String)} {fdays : List String} {rng : Rng}
    {lp : LabPlacement}
    (h : (lab_relax_fscan fds ftbl dtbl fshift dshift sem div avoid_dup fpairs
      dpairs fdays rng).1 = some lp) :
    (lp.fs1, lp.fs2) ∈ fpairs ∧ free_pair ftbl lp.fday lp.fs1 lp.fs2 = true ∧
    lab_dpair_scan dtbl fshift dshift lp.fs1 lp.fs2 dpairs lp.dday =
      some (lp.ds1, lp.ds2) := by
  induction fdays generalizing rng with
  | nil => simp [lab_relax_fscan] at h
  | cons fday rest ih =>
      rw [lab_relax_fscan] at h
      cases hcall : (lab_relax_fpairs fds ftbl dtbl fshift dshift sem div avoid_dup
        dpairs fday fpairs rng).1 with
      | some lp0 =>
          rw [hcall] at h
          simp only [Option.some.injEq] at h
          subst h
          obtain ⟨hfd, hmem, hfree, hsc⟩ := lab_relax_fpairs_inv hcall
          rw [hfd]
          exact ⟨hmem, hfree, hsc⟩
      | none =>
          rw [hcall] at h
          exact ih h

theorem teachingSlots_mem {shift s : String} (h : s ∈ teachingSlots shift) :
    s ∈ SHIFT_SLOTS shift := by
  unfold teachingSlots at h
  exact (List.mem_filter.1 h).1

theorem force_theory_tight_inv {fds : Fds} {ftbl dtbl : Grid}
    {fshift dshift sem div : String} {p : Placement}
    (h : force_theory_tight_scan fds ftbl dtbl fshift dshift sem div = some p) :
    p.fslot ∈ teachingSlots fshift ∧ free_slot ftbl p.fday p.fslot = true ∧
    p.dslot ∈ teachingSlots dshift ∧ free_slot dtbl p.dday p.dslot = true ∧
    slots_equivalent fshift p.fslot dshift p.dslot = true ∧
    division_slot_allowed_for_faculty fshift dshift p.dslot = true := by
  unfold force_theory_tight_scan at h
  obtain ⟨day, _, hf⟩ := findSome?_inv h
  by_cases h1 : is_division_holiday fds sem div day
  · simp [h1] at hf
  rw [if_neg (by simp [h1])] at hf
  obtain ⟨fs, hfmem, hfs⟩ := findSome?_inv hf
  by_cases h2 : free_slot ftbl day fs
  swap
  · simp [h2] at hfs
  rw [if_neg (by simp [h2])] at hfs
  obtain ⟨ds, hdmem, hds⟩ := findSome?_inv hfs
  by_cases h3 : free_slot dtbl day ds
  swap
  · simp [h3] at hds
  rw [if_neg (by simp [h3])] at hds
  by_cases h4 : slots_equivalent fshift fs dshift ds
  swap
  · simp [h4] at hds
  rw [if_neg (by simp [h4])] at hds
  by_cases h5 : division_slot_allowed_for_faculty fshift dshift ds
  swap
  · simp [h5] at hds
  rw [if_neg (by simp [h5])] at hds
  have hp : p = ⟨day, fs, day, ds⟩ := by
    have := hds
    simp only [Option.some.injEq] at this
    exact this.symm
  subst hp
  exact ⟨hfmem, h2, hdmem, h3, h4, h5⟩

theorem force_theory_relax_inv {ftbl dtbl : Grid} {fshift dshift : String}
    {p : Placement}
    (h : force_theory_relax_scan ftbl dtbl fshift dshift = some p) :
    p.fslot ∈ teachingSlots fshift ∧ free_slot ftbl p.fday p.fslot = true ∧
    p.dslot ∈ teachingSlots dshift ∧ free_slot dtbl p.dday p.dslot = true ∧
    slots_equivalent fshift p.fslot dshift p.dslot = true ∧
    division_slot_allowed_for_faculty fshift dshift p.dslot = true := by
  unfold force_theory_relax_scan at h
  obtain ⟨dday, _, hf⟩ := findSome?_inv h
  obtain ⟨ds, hdmem, hds⟩ := findSome?_inv hf
  by_cases h1 : free_slot dtbl dday ds
  swap
  · simp [h1] at hds
  rw [if_neg (by simp [h1])] at hds
  obtain ⟨fday, _, hfd⟩ := findSome?_inv hds
  obtain ⟨fs, hfmem, hfs⟩ := findSome?_inv hfd
  by_cases h2 : free_slot ftbl fday fs
  swap
  · simp [h2] at hfs
  rw [if_neg (by simp [h2])] at hfs
  by_cases h3 : slots_equivalent fshift fs dshift ds
  swap
  · simp [h3] at hfs
  rw [if_neg (by simp [h3])] at hfs
  by_cases h4 : division_slot_allowed_for_faculty fshift dshift ds
  swap
  · simp [h4] at hfs
  rw [if_neg (by simp [h4])] at hfs
  have hp : p = ⟨fday, fs, dday, ds⟩ := by
    have := hfs
    simp only [Option.some.injEq] at this
    exact this.symm
  subst hp
  exact ⟨hfmem, h2, hdmem, h1, h3, h4⟩

theorem force_lab_tight_inv {fds : Fds} {ftbl dtbl : Grid}
    {fshift dshift sem div : String} {fpairs dpairs : List (String × String)}
    {lp : LabPlacement}
    (h : force_lab_tight_scan fds ftbl dtbl fshift dshift sem div fpairs dpairs =
      some lp) :
    (lp.fs1, lp.fs2) ∈ fpairs ∧ free_pair ftbl lp.fday lp.fs1 lp.fs2 = true ∧
    (lp.ds1, lp.ds2) ∈ dpairs ∧ free_pair dtbl lp.dday lp.ds1 lp.ds2 = true ∧
    pair_slots_equivalent fshift lp.fs1 lp.fs2 dshift lp.ds1 lp.ds2 = true := by
  unfold force_lab_tight_scan at h
  obtain ⟨day, _, hf⟩ := findSome?_inv h
  by_cases h1 : is_division_holiday fds sem div day
  · simp [h1] at hf
  rw [if_neg (by simp [h1])] at hf
  obtain ⟨fp, hfmem, hfp⟩ := findSome?_inv hf
  by_cases h2 : free_pair ftbl day fp.1 fp.2
  swap
  · simp [h2] at hfp
  rw [if_neg (by simp [h2])] at hfp
  cases hscan : lab_dpair_scan dtbl fshift dshift fp.1 fp.2 dpairs day with
  | none => rw [hscan] at hfp; simp at hfp
  | some dp =>
      rw [hscan] at hfp
      simp only [Option.map_some', Option.some.injEq] at hfp
      obtain ⟨hdmem, hdfree, hdeq, _⟩ := lab_dpair_scan_inv
        (show lab_dpair_scan dtbl fshift dshift fp.1 fp.2 dpairs day =
          some (dp.1, dp.2) by rw [hscan])
      subst hfp
      exact ⟨by simpa using hfmem, h2, hdmem, hdfree, hdeq⟩

theorem force_lab_relax_inv {ftbl dtbl : Grid} {fshift dshift : String}
    {fpairs dpairs : List (String × String)} {lp : LabPlacement}
    (h : force_lab_relax_scan ftbl dtbl fshift dshift fpairs dpairs = some lp) :
    (lp.fs1, lp.fs2) ∈ fpairs ∧ free_pair ftbl lp.fday lp.fs1 lp.fs2 = true ∧
    (lp.ds1, lp.ds2) ∈ dpairs ∧ free_pair dtbl lp.dday lp.ds1 lp.ds2 = true ∧
    pair_slots_equivalent fshift lp.fs1 lp.fs2 dshift lp.ds1 lp.ds2 = true := by
  unfold force_lab_relax_scan at h
  obtain ⟨dday, _, hf⟩ := findSome?_inv h
  obtain ⟨dp, hdmem, hdp⟩ := findSome?_inv hf
  by_cases h1 : free_pair dtbl dday dp.1 dp.2
  swap
  · simp [h1] at hdp
  rw [if_neg (by simp [h1])] at hdp
  obtain ⟨fday, _, hfd⟩ := findSome?_inv hdp
  obtain ⟨fp, hfmem, hfp⟩ := findSome?_inv hfd
  by_cases h2 : free_pair ftbl fday fp.1 fp.2
  swap
  · simp [h2] at hfp
  rw [if_neg (by simp [h2])] at hfp
  by_cases h3 : pair_slots_equivalent fshift fp.1 fp.2 dshift dp.1 dp.2
  swap
  · simp [h3] at hfp
  rw [if_neg (by simp [h3])] at hfp
  have hp : lp = ⟨fday, fp.1, fp.2, dday, dp.1, dp.2⟩ := by
    have := hfp
    simp only [Option.some.injEq] at this
    exact this.symm
  subst hp
  exact ⟨by simpa using hfmem, h2, by simpa using hdmem, h1, h3⟩

/-! ## Placement operation specifications

One statement per operation covering both control paths: on failure nothing
was written; on success the committed slots were free, canonically
equivalent, shift-admissible (theory; the lab relaxed force pass omits the
admissibility guard), and the grids are exactly the input grids plus the
placement cells. -/

def TheoryOpSpec (ftbl dtbl : Grid) (fshift dshift fname sem div subject : String)
    (res : Option Placement) (f' d' : Grid) : Prop :=
  match res with
  | none => f' = ftbl ∧ d' = dtbl
  | some p =>
      p.fslot ∈ SHIFT_SLOTS fshift ∧ p.dslot ∈ SHIFT_SLOTS dshift ∧
      free_slot ftbl p.fday p.fslot = true ∧ free_slot dtbl p.dday p.dslot = true ∧
      slots_equivalent fshift p.fslot dshift p.dslot = true ∧
      division_slot_allowed_for_faculty fshift dshift p.dslot = true ∧
      f' = setCell ftbl p.fday p.fslot (mkTheoryFac subject sem div) ∧
      d' = setCell dtbl p.dday p.dslot (mkTheoryDiv subject fname)

def LabOpSpec (ftbl dtbl : Grid) (fshift dshift fname sem div subject batch : String)
    (res : Option LabPlacement) (f' d' : Grid) : Prop :=
  match res with
  | none => f' = ftbl ∧ d' = dtbl
  | some lp =>
      (lp.fs1, lp.fs2) ∈ consecutive_pairs_for_shift fshift ∧
      (lp.ds1, lp.ds2) ∈ consecutive_pairs_for_shift dshift ∧
      free_pair ftbl lp.fday lp.fs1 lp.fs2 = true ∧
      free_pair dtbl lp.dday lp.ds1 lp.ds2 = true ∧
      pair_slots_equivalent fshift lp.fs1 lp.fs2 dshift lp.ds1 lp.ds2 = true ∧
      f' = (writeLab ftbl dtbl fname sem div subject batch lp).1 ∧
      d' = (writeLab ftbl dtbl fname sem div subject batch lp).2

theorem lock_theory_spec (fds : Fds) (ftbl dtbl : Grid)
    (fshift dshift fname sem div subject : String) (avoid_dup : Bool) (rng : Rng) :
    TheoryOpSpec ftbl dtbl fshift dshift fname sem div subject
      (lock_theory fds ftbl dtbl fshift dshift fname sem div subject avoid_dup rng).placed
      (lock_theory fds ftbl dtbl fshift dshift fname sem div subject avoid_dup rng).ftbl
      (lock_theory fds ftbl dtbl fshift dshift fname sem div subject avoid_dup rng).dtbl := by
  unfold lock_theory
  cases h1 : theory_day_scan fds ftbl dtbl fshift dshift sem div subject avoid_dup true
    (sample rng).1 with
  | some t =>
      obtain ⟨day, fs, ds⟩ := t
      obtain ⟨_, hscan⟩ := theory_day_scan_inv h1
      obtain ⟨hm1, hf1, hm2, hf2, he, ha⟩ := theory_inner_scan_inv hscan
      exact ⟨hm1, hm2, hf1, hf2, he, ha, rfl, rfl⟩
  | none =>
      cases h2 : theory_day_scan fds ftbl dtbl fshift dshift sem div subject false false
        (sample (sample rng).2).1 with
      | some t =>
          obtain ⟨day, fs, ds⟩ := t
          obtain ⟨_, hscan⟩ := theory_day_scan_inv h2
          obtain ⟨hm1, hf1, hm2, hf2, he, ha⟩ := theory_inner_scan_inv hscan
          exact ⟨hm1, hm2, hf1, hf2, he, ha, rfl, rfl⟩
      | none => exact ⟨rfl, rfl⟩

theorem lock_lab_spec (fds : Fds) (ftbl dtbl : Grid)
    (fshift dshift fname sem div subject batch_label : String) (avoid_dup : Bool)
    (rng : Rng) :
    LabOpSpec ftbl dtbl fshift dshift fname sem div subject batch_label
      (lock_lab fds ftbl dtbl fshift dshift fname sem div subject batch_label avoid_dup rng).placed
      (lock_lab fds ftbl dtbl fshift dshift fname sem div subject batch_label avoid_dup rng).ftbl
      (lock_lab fds ftbl dtbl fshift dshift fname sem div subject batch_label avoid_dup rng).dtbl := by
  unfold lock_lab
  cases h1 : lab_strict_scan fds ftbl dtbl fshift dshift sem div subject avoid_dup
    (consecutive_pairs_for_shift fshift) (consecutive_pairs_for_shift dshift)
    (sample rng).1 with
  | some t =>
      obtain ⟨day, fs1, fs2, ds1, ds2⟩ := t
      obtain ⟨_, hfmem, hffree, hdscan⟩ := lab_strict_scan_inv h1
      obtain ⟨hdmem, hdfree, hdeq, _⟩ := lab_dpair_scan_inv hdscan
      exact ⟨hfmem, hdmem, hffree, hdfree, hdeq, rfl, rfl⟩
  | none =>
      cases h2 : (lab_relax_fscan fds ftbl dtbl fshift dshift sem div avoid_dup
        (consecutive_pairs_for_shift fshift) (consecutive_pairs_for_shift dshift)
        (sample (sample rng).2).1 (sample (sample rng).2).2).1 with
      | some lp =>
          obtain ⟨hfmem, hffree, hdscan⟩ := lab_relax_fscan_inv h2
          obtain ⟨hdmem, hdfree, hdeq, _⟩ := lab_dpair_scan_inv hdscan
          exact ⟨hfmem, hdmem, hffree, hdfree, hdeq, rfl, rfl⟩
      | none => exact ⟨rfl, rfl⟩

theorem force_place_theory_spec (fds : Fds) (ftbl dtbl : Grid)
    (fshift dshift fname sem div subject : String) :
    TheoryOpSpec ftbl dtbl fshift dshift fname sem div subject
      (force_place_theory fds ftbl dtbl fshift dshift fname sem div subject).placed
      (force_place_theory fds ftbl dtbl fshift dshift fname sem div subject).ftbl
      (force_place_theory fds ftbl dtbl fshift dshift fname sem div subject).dtbl := by
  unfold force_place_theory
  cases h1 : force_theory_tight_scan fds ftbl dtbl fshift dshift sem div with
  | some p =>
      obtain ⟨hm1, hf1, hm2, hf2, he, ha⟩ := force_theory_tight_inv h1
      exact ⟨teachingSlots_mem hm1, teachingSlots_mem hm2, hf1, hf2, he, ha, rfl, rfl⟩
  | none =>
      cases h2 : force_theory_relax_scan ftbl dtbl fshift dshift with
      | some p =>
          obtain ⟨hm1, hf1, hm2, hf2, he, ha⟩ := force_theory_relax_inv h2
          exact ⟨teachingSlots_mem hm1, teachingSlots_mem hm2, hf1, hf2, he, ha, rfl, rfl⟩
      | none => exact ⟨rfl, rfl⟩

theorem force_place_lab_spec (fds : Fds) (ftbl dtbl : Grid)
    (fshift dshift fname sem div subject batch_label : String) :
    LabOpSpec ftbl dtbl fshift dshift fname sem div subject batch_label
      (force_place_lab fds ftbl dtbl fshift dshift fname sem div subject batch_label).placed
      (force_place_lab fds ftbl dtbl fshift dshift fname sem div subject batch_label).ftbl
      (force_place_lab fds ftbl dtbl fshift dshift fname sem div subject batch_label).dtbl := by
  unfold force_place_lab
  cases h1 : force_lab_tight_scan fds ftbl dtbl fshift dshift sem div
    (consecutive_pairs_for_shift fshift) (consecutive_pairs_for_shift dshift) with
  | some lp =>
      obtain ⟨hfmem, hffree, hdmem, hdfree, hdeq⟩ := force_lab_tight_inv h1
      exact ⟨hfmem, hdmem, hffree, hdfree, hdeq, rfl, rfl⟩
  | none =>
      cases h2 : force_lab_relax_scan ftbl dtbl fshift dshift
        (consecutive_pairs_for_shift fshift) (consecutive_pairs_for_shift dshift) with
      | some lp =>
          obtain ⟨hfmem, hffree, hdmem, hdfree, hdeq⟩ := force_lab_relax_inv h2
          exact ⟨hfmem, hdmem, hffree, hdfree, hdeq, rfl, rfl⟩
      | none => exact ⟨rfl, rfl⟩

/-! ## Evolution of grids through the operations -/

theorem theory_op_evolve {ftbl dtbl f' d' : Grid}
    {fshift dshift fname sem div subject : String} {res : Option Placement}
    (h : TheoryOpSpec ftbl dtbl fshift dshift fname sem div subject res f' d') :
    GridEvolve ftbl f' ∧ GridEvolve dtbl d' := by
  cases res with
  | none =>
      obtain ⟨h1, h2⟩ := h
      rw [h1, h2]
      exact ⟨GridEvolve.refl _, GridEvolve.refl _⟩
  | some p =>
      obtain ⟨_, _, hf1, hf2, _, _, he1, he2⟩ := h
      rw [he1, he2]
      exact ⟨GridEvolve.write1 hf1 (vacant_mkTheoryFac subject sem div),
        GridEvolve.write1 hf2 (vacant_mkTheoryDiv subject fname)⟩

theorem lab_op_evolve {ftbl dtbl f' d' : Grid}
    {fshift dshift fname sem div subject batch : String} {res : Option LabPlacement}
    (h : LabOpSpec ftbl dtbl fshift dshift fname sem div subject batch res f' d') :
    GridEvolve ftbl f' ∧ GridEvolve dtbl d' := by
  cases res with
  | none =>
      obtain ⟨h1, h2⟩ := h
      rw [h1, h2]
      exact ⟨GridEvolve.refl _, GridEvolve.refl _⟩
  | some lp =>
      obtain ⟨_, _, hf1, hf2, _, he1, he2⟩ := h
      rw [he1, he2]
      exact ⟨GridEvolve.write2 hf1 (vacant_mkLabFac subject sem div batch) vacant_merge,
        GridEvolve.write2 hf2 (vacant_mkLabDiv subject fname batch) vacant_merge⟩

/-! ## Store-level invariants -/

theorem dtCell_some {dt : DTables} {k : String × String} {p : String × Grid}
    (h : dtLookup dt k = some p) (day slot : String) :
    dtCell dt k day slot = p.2.cell day slot := by
  unfold dtCell
  rw [h]

theorem dtSlots_some {dt : DTables} {k : String × String} {p : String × Grid}
    (h : dtLookup dt k = some p) : dtSlots dt k = p.2.slots := by
  unfold dtSlots
  rw [h]

theorem dtSlots_none {dt : DTables} {k : String × String}
    (h : dtLookup dt k = none) : dtSlots dt k = [] := by
  unfold dtSlots
  rw [h]

def DtWF (dt : DTables) : Prop :=
  ∀ k p, dtLookup dt k = some p → GridWF p.2

def FtWF (ft : List (String × Grid)) : Prop :=
  ∀ n g, ftLookup ft n = some g → GridWF g

/-- Free-day sanctity as a store invariant: in every division grid, every
teaching slot of a day recorded as a holiday for the grid's key holds the
holiday sentinel. -/
def HolInv (fds : Fds) (dt : DTables) : Prop :=
  ∀ k day slot, day ∈ fdsGet fds k.1 k.2 → slot ∈ dtSlots dt k →
    isInert slot = false → dtCell dt k day slot = mkSentinel k.1 k.2

def DtEvolve (dt dt' : DTables) : Prop :=
  ∀ k p, dtLookup dt k = some p → ∃ g', dtLookup dt' k = some (p.1, g') ∧
    GridEvolve p.2 g'

def FtEvolve (ft ft' : List (String × Grid)) : Prop :=
  ∀ n g, ftLookup ft n = some g → ∃ g', ftLookup ft' n = some g' ∧ GridEvolve g g'

theorem DtEvolve.dtrefl (dt : DTables) : DtEvolve dt dt :=
  fun _ p h => ⟨p.2, by rw [h], GridEvolve.refl _⟩

theorem DtEvolve.dttrans {d1 d2 d3 : DTables} (h12 : DtEvolve d1 d2)
    (h23 : DtEvolve d2 d3) : DtEvolve d1 d3 := by
  intro k p h
  obtain ⟨g2, hl2, he2⟩ := h12 k p h
  obtain ⟨g3, hl3, he3⟩ := h23 k (p.1, g2) hl2
  exact ⟨g3, hl3, he2.trans he3⟩

theorem FtEvolve.ftrefl (ft : List (String × Grid)) : FtEvolve ft ft :=
  fun _ g h => ⟨g, h, GridEvolve.refl _⟩

theorem FtEvolve.fttrans {f1 f2 f3 : List (String × Grid)} (h12 : FtEvolve f1 f2)
    (h23 : FtEvolve f2 f3) : FtEvolve f1 f3 := by
  intro n g h
  obtain ⟨g2, hl2, he2⟩ := h12 n g h
  obtain ⟨g3, hl3, he3⟩ := h23 n g2 hl2
  exact ⟨g3, hl3, he2.trans he3⟩

/-- Writing back an evolved table preserves the store relations. -/
theorem dtSetTable_evolve {dt : DTables} {k : String × String} {g1 : Grid}
    (h : ∀ sh g0, dtLookup dt k = some (sh, g0) → GridEvolve g0 g1) :
    DtEvolve dt (dtSetTable dt k g1) := by
  intro k' p hl
  by_cases hk : k' = k
  · subst hk
    exact ⟨g1, dtLookup_setTable_self hl g1, h p.1 p.2 (by rw [hl])⟩
  · exact ⟨p.2, by rw [dtLookup_setTable_other hk g1, hl], GridEvolve.refl _⟩

theorem dtSetTable_wf {dt : DTables} {k : String × String} {g1 : Grid}
    (hdt : DtWF dt) (hg : GridWF g1) : DtWF (dtSetTable dt k g1) := by
  intro k' p hl
  by_cases hk : k' = k
  · rw [hk] at hl
    cases h0 : dtLookup dt k with
    | none => rw [dtLookup_setTable_none h0 g1] at hl; cases hl
    | some q =>
        rw [dtLookup_setTable_self h0 g1] at hl
        obtain rfl : (q.1, g1) = p := by simpa using hl
        exact hg
  · rw [dtLookup_setTable_other hk g1] at hl
    exact hdt k' p hl

theorem dtSetTable_holinv {fds : Fds} {dt : DTables} {k : String × String}
    {g1 : Grid} (hinv : HolInv fds dt)
    (h : ∀ sh g0, dtLookup dt k = some (sh, g0) → GridEvolve g0 g1) :
    HolInv fds (dtSetTable dt k g1) := by
  intro k' day slot hday hslot hni
  by_cases hk : k' = k
  · rw [hk] at hslot hday ⊢
    cases h0 : dtLookup dt k with
    | none =>
        rw [dtSlots_none (dtLookup_setTable_none h0 g1)] at hslot
        exact absurd hslot (List.not_mem_nil _)
    | some q =>
        have hev := h q.1 q.2 (by rw [h0])
        rw [dtSlots_some (dtLookup_setTable_self h0 g1)] at hslot
        have hslot0 : slot ∈ dtSlots dt k := by
          rw [dtSlots_some h0]
          have hslot1 : slot ∈ g1.slots := hslot
          rw [hev.2.1] at hslot1
          exact hslot1
        have hcell := hinv k day slot hday hslot0 hni
        rw [dtCell_some h0] at hcell
        rw [dtCell_some (dtLookup_setTable_self h0 g1)]
        show g1.cell day slot = mkSentinel k.1 k.2
        by_cases hch : g1.cell day slot = q.2.cell day slot
        · rw [hch]; exact hcell
        · obtain ⟨hf, _⟩ := hev.2.2 day slot hch
          rw [free_slot_eq_vacant] at hf
          have hv : vacant (q.2.cell day slot) = false := by
            rw [hcell]; exact vacant_mkSentinel k.1 k.2
          rw [hv] at hf
          cases hf
  · unfold dtSlots at hslot
    unfold dtCell
    rw [dtLookup_setTable_other hk g1] at hslot ⊢
    exact hinv k' day slot hday hslot hni

/-! ## `ensure_div_table` facts -/

/-- The grid created on first reference by `ensure_div_table`. -/
def freshDivGrid (fds : Fds) (sem div sh : String) : Grid :=
  markHolidayTeaching (empty_table_for_shift sh) sh sem div (fdsGet fds sem div)

/-- `ensure_div_table` either returns the store unchanged or appends exactly
the freshly created (holiday-marked) grid. -/
theorem ensure_cases (fds : Fds) (dt : DTables) (sem div sh : String) :
    ((ensure_div_table fds dt sem div sh).2.2 = dt ∧
      (∃ p, dtLookup dt (sem, div) = some p ∧
        (ensure_div_table fds dt sem div sh).1 = p.2 ∧
        (ensure_div_table fds dt sem div sh).2.1 = p.1)) ∨
    (dtLookup dt (sem, div) = none ∧
      (ensure_div_table fds dt sem div sh).1 = freshDivGrid fds sem div sh ∧
      (ensure_div_table fds dt sem div sh).2.1 = sh ∧
      (ensure_div_table fds dt sem div sh).2.2 =
        dt ++ [((sem, div), (sh, freshDivGrid fds sem div sh))]) := by
  unfold ensure_div_table freshDivGrid
  cases h : dtLookup dt (sem, div) with
  | some p => exact Or.inl ⟨rfl, p, rfl, rfl, rfl⟩
  | none => exact Or.inr ⟨rfl, rfl, rfl, rfl⟩

theorem ensure_lookup (fds : Fds) (dt : DTables) (sem div sh : String) :
    dtLookup (ensure_div_table fds dt sem div sh).2.2 (sem, div) =
      some ((ensure_div_table fds dt sem div sh).2.1,
            (ensure_div_table fds dt sem div sh).1) := by
  rcases ensure_cases fds dt sem div sh with ⟨he, p, hp, h1, h2⟩ | ⟨hn, h1, h2, he⟩
  · rw [he, hp, h1, h2]
  · rw [he, dtLookup_append, hn, h1, h2]
    simp

theorem ensure_evolve (fds : Fds) (dt : DTables) (sem div sh : String) :
    DtEvolve dt (ensure_div_table fds dt sem div sh).2.2 := by
  rcases ensure_cases fds dt sem div sh with ⟨he, _⟩ | ⟨hn, _, _, he⟩
  · rw [he]; exact DtEvolve.dtrefl dt
  · rw [he]
    intro k q hl
    refine ⟨q.2, ?_, GridEvolve.refl _⟩
    rw [dtLookup_append, hl]

theorem freshDivGrid_wf (fds : Fds) (sem div sh : String) :
    GridWF (freshDivGrid fds sem div sh) :=
  markHolidayTeaching_wf sh sem div (fdsGet fds sem div) (empty_table_wf sh)

theorem ensure_wf {fds : Fds} {dt : DTables} (sem div sh : String)
    (hdt : DtWF dt) : DtWF (ensure_div_table fds dt sem div sh).2.2 := by
  rcases ensure_cases fds dt sem div sh with ⟨he, _⟩ | ⟨hn, _, _, he⟩
  · rw [he]; exact hdt
  · rw [he]
    intro k q hl
    rw [dtLookup_append] at hl
    cases h2 : dtLookup dt k with
    | some r =>
        rw [h2] at hl
        have hrq : r = q := by simpa using hl
        rw [← hrq]
        exact hdt k r h2
    | none =>
        rw [h2] at hl
        by_cases hk : (sem, div) = k
        · rw [if_pos hk] at hl
          have hq : (sh, freshDivGrid fds sem div sh) = q := by simpa using hl
          rw [← hq]
          exact freshDivGrid_wf fds sem div sh
        · rw [if_neg hk] at hl
          cases hl

theorem freshDivGrid_slots (fds : Fds) (sem div sh : String) :
    (freshDivGrid fds sem div sh).slots = SHIFT_SLOTS sh :=
  (markHolidayTeaching_struct (empty_table_for_shift sh) sh sem div (fdsGet fds sem div)).2

theorem freshDivGrid_holiday_cell {fds : Fds} {sem div sh day slot : String}
    (hday : day ∈ fdsGet fds sem div) (hslot : slot ∈ SHIFT_SLOTS sh)
    (hni : isInert slot = false) :
    (freshDivGrid fds sem div sh).cell day slot = mkSentinel sem div :=
  markHolidayTeaching_cell_hit (empty_table_for_shift sh) sem div hday hslot hni

theorem ensure_holinv {fds : Fds} {dt : DTables} (sem div sh : String)
    (hinv : HolInv fds dt) : HolInv fds (ensure_div_table fds dt sem div sh).2.2 := by
  rcases ensure_cases fds dt sem div sh with ⟨he, _⟩ | ⟨hn, _, _, he⟩
  · rw [he]; exact hinv
  · rw [he]
    intro k day slot hday hslot hni
    have hL := dtLookup_append dt ((sem, div), (sh, freshDivGrid fds sem div sh)) k
    cases h2 : dtLookup dt k with
    | some r =>
        rw [h2] at hL
        have hL' : dtLookup (dt ++ [((sem, div), (sh, freshDivGrid fds sem div sh))]) k =
          some r := hL
        rw [dtSlots_some hL'] at hslot
        rw [dtCell_some hL']
        have := hinv k day slot hday (by rw [dtSlots_some h2]; exact hslot) hni
        rw [dtCell_some h2] at this
        exact this
    | none =>
        rw [h2] at hL
        have hL' : dtLookup (dt ++ [((sem, div), (sh, freshDivGrid fds sem div sh))]) k =
            if (sem, div) = k then some (sh, freshDivGrid fds sem div sh) else none := hL
        by_cases hk : (sem, div) = k
        · rw [if_pos hk] at hL'
          rw [dtSlots_some hL'] at hslot
          rw [dtCell_some hL']
          obtain ⟨k1, k2⟩ := k
          have hsem : sem = k1 := congrArg Prod.fst hk
          have hdiv : div = k2 := congrArg Prod.snd hk
          subst hsem
          subst hdiv
          have hsl : slot ∈ SHIFT_SLOTS sh := by
            rw [freshDivGrid_slots] at hslot
            exact hslot
          exact freshDivGrid_holiday_cell hday hsl hni
        · rw [if_neg hk] at hL'
          rw [dtSlots_none hL'] at hslot
          exact absurd hslot (List.not_mem_nil _)

/-! ## Generic fold preservation -/

theorem foldl_inv_evolve {σ α : Type} (P : σ → Prop) (R : σ → σ → Prop)
    (hrefl : ∀ s, R s s) (htrans : ∀ {s1 s2 s3}, R s1 s2 → R s2 s3 → R s1 s3)
    {f : σ → α → σ} (hstep : ∀ s x, P s → P (f s x) ∧ R s (f s x)) :
    ∀ (l : List α) (s : σ), P s → P (l.foldl f s) ∧ R s (l.foldl f s) := by
  intro l
  induction l with
  | nil => intro s hs; exact ⟨hs, hrefl s⟩
  | cons x t ih =>
      intro s hs
      rw [List.foldl_cons]
      obtain ⟨h1, h2⟩ := hstep s x hs
      obtain ⟨h3, h4⟩ := ih (f s x) h1
      exact ⟨h3, htrans h2 h4⟩

/-! ## Driver-state invariants -/

def AInv (fds : Fds) (a : AState) : Prop :=
  GridWF a.ftbl ∧ DtWF a.dtables ∧ HolInv fds a.dtables

def AEvolve (a a' : AState) : Prop :=
  GridEvolve a.ftbl a'.ftbl ∧ DtEvolve a.dtables a'.dtables

theorem AEvolve.arefl (a : AState) : AEvolve a a :=
  ⟨GridEvolve.refl _, DtEvolve.dtrefl _⟩

theorem AEvolve.atrans {a1 a2 a3 : AState} (h12 : AEvolve a1 a2)
    (h23 : AEvolve a2 a3) : AEvolve a1 a3 :=
  ⟨h12.1.trans h23.1, h12.2.dttrans h23.2⟩

theorem lab_attempt_step (fds : Fds) (fname fshift : String) (e : SubjectEntry)
    (batch : String) (a : AState) (hinv : AInv fds a) :
    AInv fds (lab_attempt fds fname fshift e batch a) ∧
    AEvolve a (lab_attempt fds fname fshift e batch a) := by
  obtain ⟨hfw, hdw, hhol⟩ := hinv
  unfold lab_attempt
  cases hdl : dtLookup a.dtables (e.semester, e.division) with
  | some p =>
      have hspec := lock_lab_spec fds a.ftbl p.2 fshift e.div_shift fname e.semester
        e.division e.subject batch true a.rng
      obtain ⟨hef, hed⟩ := lab_op_evolve hspec
      have hdwf : GridWF p.2 := hdw _ p hdl
      have hcond : ∀ sh g0, dtLookup a.dtables (e.semester, e.division) = some (sh, g0) →
          GridEvolve g0 (lock_lab fds a.ftbl p.2 fshift e.div_shift fname e.semester
            e.division e.subject batch true a.rng).dtbl := by
        intro sh g0 hl
        rw [hdl] at hl
        have hpg : p = (sh, g0) := by simpa using hl
        have hg2 : g0 = p.2 := by rw [hpg]
        rw [hg2]
        exact hed
      refine ⟨⟨hef.wf hfw, dtSetTable_wf hdw (hed.wf hdwf), dtSetTable_holinv hhol hcond⟩,
        hef, dtSetTable_evolve hcond⟩
  | none =>
      have hspec := lock_lab_spec fds a.ftbl (empty_table_for_shift e.div_shift) fshift
        e.div_shift fname e.semester e.division e.subject batch true a.rng
      obtain ⟨hef, hed⟩ := lab_op_evolve hspec
      have hcond : ∀ sh g0, dtLookup a.dtables (e.semester, e.division) = some (sh, g0) →
          GridEvolve g0 (lock_lab fds a.ftbl (empty_table_for_shift e.div_shift) fshift
            e.div_shift fname e.semester e.division e.subject batch true a.rng).dtbl := by
        intro sh g0 hl
        rw [hdl] at hl
        cases hl
      refine ⟨⟨hef.wf hfw, dtSetTable_wf hdw (hed.wf (empty_table_wf _)),
        dtSetTable_holinv hhol hcond⟩, hef, dtSetTable_evolve hcond⟩

theorem theory_attempt_step (fds : Fds) (fname fshift : String) (e : SubjectEntry)
    (a : AState) (hinv : AInv fds a) :
    AInv fds (theory_attempt fds fname fshift e a) ∧
    AEvolve a (theory_attempt fds fname fshift e a) := by
  obtain ⟨hfw, hdw, hhol⟩ := hinv
  unfold theory_attempt
  cases hdl : dtLookup a.dtables (e.semester, e.division) with
  | some p =>
      have hspec := lock_theory_spec fds a.ftbl p.2 fshift e.div_shift fname e.semester
        e.division e.subject true a.rng
      obtain ⟨hef, hed⟩ := theory_op_evolve hspec
      have hdwf : GridWF p.2 := hdw _ p hdl
      have hcond : ∀ sh g0, dtLookup a.dtables (e.semester, e.division) = some (sh, g0) →
          GridEvolve g0 (lock_theory fds a.ftbl p.2 fshift e.div_shift fname e.semester
            e.division e.subject true a.rng).dtbl := by
        intro sh g0 hl
        rw [hdl] at hl
        have hpg : p = (sh, g0) := by simpa using hl
        have hg2 : g0 = p.2 := by rw [hpg]
        rw [hg2]
        exact hed
      refine ⟨⟨hef.wf hfw, dtSetTable_wf hdw (hed.wf hdwf), dtSetTable_holinv hhol hcond⟩,
        hef, dtSetTable_evolve hcond⟩
  | none =>
      have hspec := lock_theory_spec fds a.ftbl (empty_table_for_shift e.div_shift) fshift
        e.div_shift fname e.semester e.division e.subject true a.rng
      obtain ⟨hef, hed⟩ := theory_op_evolve hspec
      have hcond : ∀ sh g0, dtLookup a.dtables (e.semester, e.division) = some (sh, g0) →
          GridEvolve g0 (lock_theory fds a.ftbl (empty_table_for_shift e.div_shift) fshift
            e.div_shift fname e.semester e.division e.subject true a.rng).dtbl := by
        intro sh g0 hl
        rw [hdl] at hl
        cases hl
      refine ⟨⟨hef.wf hfw, dtSetTable_wf hdw (hed.wf (empty_table_wf _)),
        dtSetTable_holinv hhol hcond⟩, hef, dtSetTable_evolve hcond⟩

theorem run_lab_entry_step (fds : Fds) (fname fshift : String) (e : SubjectEntry)
    (a : AState) (hinv : AInv fds a) :
    AInv fds (run_lab_entry fds fname fshift e a) ∧
    AEvolve a (run_lab_entry fds fname fshift e a) := by
  obtain ⟨hfw, hdw, hhol⟩ := hinv
  have hst0 : AInv fds { a with dtables :=
      (ensure_div_table fds a.dtables e.semester e.division e.div_shift).2.2 } :=
    ⟨hfw, ensure_wf e.semester e.division e.div_shift hdw,
      ensure_holinv e.semester e.division e.div_shift hhol⟩
  have hev0 : AEvolve a { a with dtables :=
      (ensure_div_table fds a.dtables e.semester e.division e.div_shift).2.2 } :=
    ⟨GridEvolve.refl _, ensure_evolve fds a.dtables e.semester e.division e.div_shift⟩
  have h := foldl_inv_evolve (AInv fds) AEvolve AEvolve.arefl AEvolve.atrans
    (f := fun acc batch => (List.range e.num_labs).foldl
      (fun acc2 _ => lab_attempt fds fname fshift e batch acc2) acc)
    (fun s batch hs => foldl_inv_evolve (AInv fds) AEvolve AEvolve.arefl AEvolve.atrans
      (fun s2 _ hs2 => lab_attempt_step fds fname fshift e batch s2 hs2) _ _ hs)
    (if e.batches_grouped then e.batches.take 1 else e.batches) _ hst0
  exact ⟨h.1, hev0.atrans h.2⟩

theorem run_theory_entry_step (fds : Fds) (fname fshift : String) (e : SubjectEntry)
    (a : AState) (hinv : AInv fds a) :
    AInv fds (run_theory_entry fds fname fshift e a) ∧
    AEvolve a (run_theory_entry fds fname fshift e a) := by
  obtain ⟨hfw, hdw, hhol⟩ := hinv
  have hst0 : AInv fds { a with dtables :=
      (ensure_div_table fds a.dtables e.semester e.division e.div_shift).2.2 } :=
    ⟨hfw, ensure_wf e.semester e.division e.div_shift hdw,
      ensure_holinv e.semester e.division e.div_shift hhol⟩
  have hev0 : AEvolve a { a with dtables :=
      (ensure_div_table fds a.dtables e.semester e.division e.div_shift).2.2 } :=
    ⟨GridEvolve.refl _, ensure_evolve fds a.dtables e.semester e.division e.div_shift⟩
  have h := foldl_inv_evolve (AInv fds) AEvolve AEvolve.arefl AEvolve.atrans
    (fun s2 _ hs2 => theory_attempt_step fds fname fshift e s2 hs2)
    (List.range e.theory_classes) _ hst0
  exact ⟨h.1, hev0.atrans h.2⟩

theorem force_task_step (fds : Fds) (fname : String) (task : PendingTask)
    (a : AState) (hinv : AInv fds a) :
    AInv fds (force_task fds fname task a) ∧ AEvolve a (force_task fds fname task a) := by
  obtain ⟨hfw, hdw, hhol⟩ := hinv
  have hdw1 : DtWF (ensure_div_table fds a.dtables task.semester task.division
      task.div_shift).2.2 := ensure_wf task.semester task.division task.div_shift hdw
  have hhol1 : HolInv fds (ensure_div_table fds a.dtables task.semester task.division
      task.div_shift).2.2 := ensure_holinv task.semester task.division task.div_shift hhol
  have hlook := ensure_lookup fds a.dtables task.semester task.division task.div_shift
  have hgwf : GridWF (ensure_div_table fds a.dtables task.semester task.division
      task.div_shift).1 := hdw1 _ _ hlook
  have hev1 : DtEvolve a.dtables (ensure_div_table fds a.dtables task.semester
      task.division task.div_shift).2.2 :=
    ensure_evolve fds a.dtables task.semester task.division task.div_shift
  unfold force_task
  by_cases ht : task.ptype = "Theory"
  · rw [if_pos ht]
    have hspec := force_place_theory_spec fds a.ftbl
      (ensure_div_table fds a.dtables task.semester task.division task.div_shift).1
      task.fshift task.div_shift fname task.semester task.division task.subject
    obtain ⟨hef, hed⟩ := theory_op_evolve hspec
    have hcond : ∀ sh g0, dtLookup (ensure_div_table fds a.dtables task.semester
        task.division task.div_shift).2.2 (task.semester, task.division) = some (sh, g0) →
        GridEvolve g0 (force_place_theory fds a.ftbl
          (ensure_div_table fds a.dtables task.semester task.division task.div_shift).1
          task.fshift task.div_shift fname task.semester task.division task.subject).dtbl := by
      intro sh g0 hl
      rw [hlook] at hl
      have hg0 : g0 = (ensure_div_table fds a.dtables task.semester task.division
        task.div_shift).1 := by
        have := hl.symm
        simp only [Option.some.injEq, Prod.mk.injEq] at this
        exact this.2
      rw [hg0]
      exact hed
    exact ⟨⟨hef.wf hfw, dtSetTable_wf hdw1 (hed.wf hgwf), dtSetTable_holinv hhol1 hcond⟩,
      hef, hev1.dttrans (dtSetTable_evolve hcond)⟩
  · rw [if_neg ht]
    have hspec := force_place_lab_spec fds a.ftbl
      (ensure_div_table fds a.dtables task.semester task.division task.div_shift).1
      task.fshift task.div_shift fname task.semester task.division task.subject
      (task.batch.getD "None")
    obtain ⟨hef, hed⟩ := lab_op_evolve hspec
    have hcond : ∀ sh g0, dtLookup (ensure_div_table fds a.dtables task.semester
        task.division task.div_shift).2.2 (task.semester, task.division) = some (sh, g0) →
        GridEvolve g0 (force_place_lab fds a.ftbl
          (ensure_div_table fds a.dtables task.semester task.division task.div_shift).1
          task.fshift task.div_shift fname task.semester task.division task.subject
          (task.batch.getD "None")).dtbl := by
      intro sh g0 hl
      rw [hlook] at hl
      have hg0 : g0 = (ensure_div_table fds a.dtables task.semester task.division
        task.div_shift).1 := by
        have := hl.symm
        simp only [Option.some.injEq, Prod.mk.injEq] at this
        exact this.2
      rw [hg0]
      exact hed
    exact ⟨⟨hef.wf hfw, dtSetTable_wf hdw1 (hed.wf hgwf), dtSetTable_holinv hhol1 hcond⟩,
      hef, hev1.dttrans (dtSetTable_evolve hcond)⟩

/-! ## Engine-state invariants across faculties -/

def EInv (fds : Fds) (st : EngineState) : Prop :=
  FtWF st.ftables ∧ DtWF st.dtables ∧ HolInv fds st.dtables

def EEvolve (st st' : EngineState) : Prop :=
  FtEvolve st.ftables st'.ftables ∧ DtEvolve st.dtables st'.dtables

theorem ftAppend_wf {ft : List (String × Grid)} {n : String} {g : Grid}
    (hft : FtWF ft) (hg : GridWF g) : FtWF (ft ++ [(n, g)]) := by
  intro n' g' hl
  rw [ftLookup_append] at hl
  cases h2 : ftLookup ft n' with
  | some g0 =>
      rw [h2] at hl
      have : g0 = g' := by simpa using hl
      rw [← this]
      exact hft n' g0 h2
  | none =>
      rw [h2] at hl
      by_cases hn : n = n'
      · rw [if_pos hn] at hl
        have : g = g' := by simpa using hl
        rw [← this]
        exact hg
      · rw [if_neg hn] at hl
        cases hl

theorem ftSetTable_wf {ft : List (String × Grid)} {n : String} {g : Grid}
    (hft : FtWF ft) (hg : GridWF g) : FtWF (ftSetTable ft n g) := by
  intro n' g' hl
  by_cases hn : n' = n
  · rw [hn] at hl
    cases h2 : ftLookup ft n with
    | none => rw [ftLookup_setTable_none h2 g] at hl; cases hl
    | some g0 =>
        rw [ftLookup_setTable_self h2 g] at hl
        have : g = g' := by simpa using hl
        rw [← this]
        exact hg
  · rw [ftLookup_setTable_other hn g] at hl
    exact hft n' g' hl

theorem assign_locks_step (fds : Fds) (fname fshift : String)
    (subjects : List SubjectEntry) (a0 : AState) (hinv : AInv fds a0) :
    AInv fds (assign_locks fds fname fshift subjects a0) ∧
    AEvolve a0 (assign_locks fds fname fshift subjects a0) := by
  unfold assign_locks
  have h1 := foldl_inv_evolve (AInv fds) AEvolve AEvolve.arefl AEvolve.atrans
    (fun s e hs => run_lab_entry_step fds fname fshift e s hs)
    (subjects.filter (fun s => s.type = "Lab")) _ hinv
  have h2 := foldl_inv_evolve (AInv fds) AEvolve AEvolve.arefl AEvolve.atrans
    (fun s e hs => run_theory_entry_step fds fname fshift e s hs)
    (subjects.filter (fun s => s.type = "Theory")) _ h1.1
  exact ⟨h2.1, h1.2.atrans h2.2⟩

theorem assign_drain_step (fds : Fds) (fname : String) (a : AState)
    (hinv : AInv fds a) :
    AInv fds (assign_drain fds fname a) ∧ AEvolve a (assign_drain fds fname a) := by
  unfold assign_drain
  exact foldl_inv_evolve (AInv fds) AEvolve AEvolve.arefl AEvolve.atrans
    (fun s task hs => force_task_step fds fname task s hs) a.pending _ hinv

theorem assign_step (fds : Fds) (f : Faculty) (st : EngineState)
    (hinv : EInv fds st) :
    EInv fds (assign_subjects_for_faculty fds f st) ∧
    EEvolve st (assign_subjects_for_faculty fds f st) := by
  obtain ⟨hfw, hdw, hhol⟩ := hinv
  unfold assign_subjects_for_faculty
  cases hdl : ftLookup st.ftables f.name with
  | some g0 =>
      have hg0 : GridWF g0 := hfw _ _ hdl
      have ha0 : AInv fds ⟨g0, st.dtables, st.rng, [], st.trace⟩ := ⟨hg0, hdw, hhol⟩
      obtain ⟨hi1, he1⟩ := assign_locks_step fds f.name f.shift f.subjects _ ha0
      obtain ⟨hi2, he2⟩ := assign_drain_step fds f.name _ hi1
      have hchain := he1.atrans he2
      show EInv fds (finishAssign st.ftables f.name (assign_drain fds f.name
          (assign_locks fds f.name f.shift f.subjects
            ⟨g0, st.dtables, st.rng, [], st.trace⟩))) ∧
        EEvolve st (finishAssign st.ftables f.name (assign_drain fds f.name
          (assign_locks fds f.name f.shift f.subjects
            ⟨g0, st.dtables, st.rng, [], st.trace⟩)))
      unfold finishAssign
      refine ⟨⟨ftSetTable_wf hfw hi2.1, hi2.2.1, hi2.2.2⟩, ?_, hchain.2⟩
      intro n g hl
      by_cases hn : n = f.name
      · subst hn
        rw [hdl] at hl
        have hgg : g0 = g := by simpa using hl
        rw [← hgg]
        refine ⟨(assign_drain fds f.name (assign_locks fds f.name f.shift f.subjects
          ⟨g0, st.dtables, st.rng, [], st.trace⟩)).ftbl, ?_, hchain.1⟩
        exact ftLookup_setTable_self hdl _
      · exact ⟨g, by rw [ftLookup_setTable_other hn _]; exact hl, GridEvolve.refl g⟩
  | none =>
      have ha0 : AInv fds ⟨empty_table_for_shift f.shift, st.dtables, st.rng, [], st.trace⟩ :=
        ⟨empty_table_wf f.shift, hdw, hhol⟩
      obtain ⟨hi1, he1⟩ := assign_locks_step fds f.name f.shift f.subjects _ ha0
      obtain ⟨hi2, he2⟩ := assign_drain_step fds f.name _ hi1
      have hchain := he1.atrans he2
      show EInv fds (finishAssign (st.ftables ++ [(f.name, empty_table_for_shift f.shift)])
          f.name (assign_drain fds f.name (assign_locks fds f.name f.shift f.subjects
            ⟨empty_table_for_shift f.shift, st.dtables, st.rng, [], st.trace⟩))) ∧
        EEvolve st (finishAssign (st.ftables ++ [(f.name, empty_table_for_shift f.shift)])
          f.name (assign_drain fds f.name (assign_locks fds f.name f.shift f.subjects
            ⟨empty_table_for_shift f.shift, st.dtables, st.rng, [], st.trace⟩)))
      unfold finishAssign
      refine ⟨⟨ftSetTable_wf (ftAppend_wf hfw (empty_table_wf f.shift)) hi2.1,
        hi2.2.1, hi2.2.2⟩, ?_, hchain.2⟩
      intro n g hl
      have hn : ¬(n = f.name) := by
        intro he
        rw [he, hdl] at hl
        cases hl
      refine ⟨g, ?_, GridEvolve.refl g⟩
      rw [ftLookup_setTable_other hn _, ftLookup_append, hl]

theorem EEvolve.erefl (st : EngineState) : EEvolve st st :=
  ⟨FtEvolve.ftrefl _, DtEvolve.dtrefl _⟩

theorem EEvolve.etrans {s1 s2 s3 : EngineState} (h12 : EEvolve s1 s2)
    (h23 : EEvolve s2 s3) : EEvolve s1 s3 :=
  ⟨h12.1.fttrans h23.1, h12.2.dttrans h23.2⟩

/-! ## The pre-marking phase preserves the store invariants -/

theorem mark_days_struct (sem div : String) (days : List String) (tbl : Grid) :
    (mark_days sem div days tbl).days = tbl.days ∧
    (mark_days sem div days tbl).slots = tbl.slots := by
  unfold mark_days
  refine foldl_preserve (fun (t : Grid) => t.days = tbl.days ∧ t.slots = tbl.slots)
    ?_ _ _ ⟨rfl, rfl⟩
  intro t a ht
  by_cases hc : t.days.contains a
  · rw [if_pos hc]
    obtain ⟨h1, h2⟩ := mark_all_slots_struct t a sem div
    exact ⟨h1.trans ht.1, h2.trans ht.2⟩
  · rw [if_neg hc]
    exact ht

theorem mark_days_wf {sem div : String} {days : List String} {tbl : Grid}
    (hg : GridWF tbl) : GridWF (mark_days sem div days tbl) := by
  unfold mark_days
  refine foldl_preserve GridWF ?_ _ _ hg
  intro t a ht
  by_cases hc : t.days.contains a
  · rw [if_pos hc]
    exact mark_all_slots_wf a sem div ht
  · rw [if_neg hc]
    exact ht

theorem mark_days_cell_cases (sem div : String) (days : List String) (tbl : Grid)
    (d s : String) :
    (mark_days sem div days tbl).cell d s = tbl.cell d s ∨
    (mark_days sem div days tbl).cell d s = mkSentinel sem div := by
  unfold mark_days
  refine foldl_write_stable ?_ _ _
  intro t a
  by_cases hc : t.days.contains a
  · rw [if_pos hc]
    exact mark_all_slots_cell_cases t a sem div d s
  · rw [if_neg hc]
    exact Or.inl rfl

theorem apply_entry_preserve (fds : Fds) (dsm : List ((String × String) × String))
    (dt : DTables) (entry : (String × String) × List String)
    (hdw : DtWF dt) (hhol : HolInv fds dt) :
    DtWF (apply_entry fds dsm dt entry) ∧ HolInv fds (apply_entry fds dsm dt entry) := by
  have hdw1 : DtWF (ensure_div_table fds dt entry.1.1 entry.1.2
      (shiftOf dsm entry.1)).2.2 := ensure_wf _ _ _ hdw
  have hhol1 : HolInv fds (ensure_div_table fds dt entry.1.1 entry.1.2
      (shiftOf dsm entry.1)).2.2 := ensure_holinv _ _ _ hhol
  have hlook := ensure_lookup fds dt entry.1.1 entry.1.2 (shiftOf dsm entry.1)
  have hgwf : GridWF (ensure_div_table fds dt entry.1.1 entry.1.2
      (shiftOf dsm entry.1)).1 := hdw1 _ _ hlook
  unfold apply_entry
  constructor
  · exact dtSetTable_wf hdw1 (mark_days_wf hgwf)
  · intro k day slot hday hslot hni
    by_cases hk : k = entry.1
    · rw [hk] at hslot hday ⊢
      rw [dtSlots_some (dtLookup_setTable_self hlook _)] at hslot
      rw [dtCell_some (dtLookup_setTable_self hlook _)]
      show (mark_days entry.1.1 entry.1.2 entry.2 _).cell day slot =
        mkSentinel entry.1.1 entry.1.2
      have hslot' : slot ∈ (ensure_div_table fds dt entry.1.1 entry.1.2
          (shiftOf dsm entry.1)).1.slots := by
        have := (mark_days_struct entry.1.1 entry.1.2 entry.2
          (ensure_div_table fds dt entry.1.1 entry.1.2 (shiftOf dsm entry.1)).1).2
        rw [this] at hslot
        exact hslot
      have hbase := hhol1 entry.1 day slot hday
        (by rw [dtSlots_some hlook]; exact hslot') hni
      rw [dtCell_some hlook] at hbase
      rcases mark_days_cell_cases entry.1.1 entry.1.2 entry.2
        (ensure_div_table fds dt entry.1.1 entry.1.2 (shiftOf dsm entry.1)).1
        day slot with hc | hc
      · rw [hc]
        exact hbase
      · rw [hc]
    · unfold dtSlots at hslot
      unfold dtCell
      rw [dtLookup_setTable_other hk _] at hslot ⊢
      exact hhol1 k day slot hday hslot hni

theorem apply_preserve (fds : Fds) (dtables : DTables) (faculties : List Faculty)
    (hdw : DtWF dtables) (hhol : HolInv fds dtables) :
    DtWF (apply_free_day_markings_from_inputs fds dtables faculties) ∧
    HolInv fds (apply_free_day_markings_from_inputs fds dtables faculties) := by
  unfold apply_free_day_markings_from_inputs
  refine foldl_preserve (fun dt => DtWF dt ∧ HolInv fds dt) ?_ fds dtables ⟨hdw, hhol⟩
  intro dt entry h
  exact apply_entry_preserve fds (build_div_shift_map faculties) dt entry h.1 h.2

theorem empty_dtwf : DtWF ([] : DTables) := by
  intro k p h
  cases h

theorem empty_holinv (fds : Fds) : HolInv fds ([] : DTables) := by
  intro k day slot _ hslot _
  rw [dtSlots_none (by rfl)] at hslot
  exact absurd hslot (List.not_mem_nil _)

/-- The initial engine state of a run: empty faculty store, pre-marked
division store, fresh PRNG stream, empty trace. -/
def initState (faculties : List Faculty) (fds : Fds) (rng : Rng) : EngineState :=
  ⟨[], apply_free_day_markings_from_inputs fds [] faculties, rng, []⟩

theorem initState_inv (faculties : List Faculty) (fds : Fds) (rng : Rng) :
    EInv fds (initState faculties fds rng) := by
  obtain ⟨h1, h2⟩ := apply_preserve fds [] faculties empty_dtwf (empty_holinv fds)
  exact ⟨fun n g h => (by cases h), h1, h2⟩

theorem run_engine_eq_fold (faculties : List Faculty) (fds : Fds) (rng : Rng) :
    run_engine faculties fds rng =
      faculties.foldl (fun st f => assign_subjects_for_faculty fds f st)
        (initState faculties fds rng) := rfl

theorem run_engine_inv (faculties : List Faculty) (fds : Fds) (rng : Rng) :
    EInv fds (run_engine faculties fds rng) := by
  rw [run_engine_eq_fold]
  exact (foldl_inv_evolve (EInv fds) EEvolve EEvolve.erefl EEvolve.etrans
    (fun st f h => assign_step fds f st h) faculties _
    (initState_inv faculties fds rng)).1

/-! ## Cell monotonicity across the scheduling phase -/

/-- Between two engine states: every existing grid survives (same stored
shift) and none of its non-empty cells is overwritten with a different
value. -/
def StateMono (st st' : EngineState) : Prop :=
  (∀ n g, ftLookup st.ftables n = some g → ∃ g', ftLookup st'.ftables n = some g' ∧
    ∀ d s, g.cell d s ≠ "" → g'.cell d s = g.cell d s) ∧
  (∀ k p, dtLookup st.dtables k = some p → ∃ g', dtLookup st'.dtables k = some (p.1, g') ∧
    ∀ d s, p.2.cell d s ≠ "" → g'.cell d s = p.2.cell d s)

/-- `StateMono` holds between every pair of consecutive states as the driver
processes the faculty list. -/
def MonoChain (fds : Fds) : EngineState → List Faculty → Prop
  | _, [] => True
  | st, f :: rest =>
      StateMono st (assign_subjects_for_faculty fds f st) ∧
      MonoChain fds (assign_subjects_for_faculty fds f st) rest

theorem mono_of_evolve {fds : Fds} {st st' : EngineState} (hinv : EInv fds st)
    (hev : EEvolve st st') : StateMono st st' := by
  constructor
  · intro n g hl
    obtain ⟨g', hl', he⟩ := hev.1 n g hl
    exact ⟨g', hl', fun d s hne => he.mono (hinv.1 n g hl) hne⟩
  · intro k p hl
    obtain ⟨g', hl', he⟩ := hev.2 k p hl
    exact ⟨g', hl', fun d s hne => he.mono (hinv.2.1 k p hl) hne⟩

theorem monochain_of_inv (fds : Fds) :
    ∀ (faculties : List Faculty) (st : EngineState), EInv fds st →
      MonoChain fds st faculties := by
  intro faculties
  induction faculties with
  | nil => intro st _; exact trivial
  | cons f rest ih =>
      intro st hinv
      obtain ⟨hinv', hev⟩ := assign_step fds f st hinv
      exact ⟨mono_of_evolve hinv hev, ih _ hinv'⟩

/-! ## Trace structure of the driver -/

/-- `s'` extends `s`'s trace by events all equal to `ev`. -/
def TraceExt (ev : Ev) (s s' : AState) : Prop :=
  ∃ l, s'.trace = s.trace ++ l ∧ ∀ e ∈ l, e = ev

theorem TraceExt.trefl (ev : Ev) (s : AState) : TraceExt ev s s :=
  ⟨[], by simp, fun e he => absurd he (List.not_mem_nil e)⟩

theorem TraceExt.ttrans {ev : Ev} {s1 s2 s3 : AState} (h12 : TraceExt ev s1 s2)
    (h23 : TraceExt ev s2 s3) : TraceExt ev s1 s3 := by
  obtain ⟨l1, he1, ha1⟩ := h12
  obtain ⟨l2, he2, ha2⟩ := h23
  refine ⟨l1 ++ l2, by rw [he2, he1, List.append_assoc], fun e he => ?_⟩
  rcases List.mem_append.1 he with h | h
  · exact ha1 e h
  · exact ha2 e h

theorem lab_attempt_trace (fds : Fds) (fname fshift : String) (e : SubjectEntry)
    (batch : String) (a : AState) :
    TraceExt (Ev.lock fname) a (lab_attempt fds fname fshift e batch a) :=
  ⟨[Ev.lock fname], rfl, by simp⟩

theorem theory_attempt_trace (fds : Fds) (fname fshift : String) (e : SubjectEntry)
    (a : AState) :
    TraceExt (Ev.lock fname) a (theory_attempt fds fname fshift e a) :=
  ⟨[Ev.lock fname], rfl, by simp⟩

theorem force_task_trace (fds : Fds) (fname : String) (task : PendingTask)
    (a : AState) :
    TraceExt (Ev.force fname) a (force_task fds fname task a) := by
  refine ⟨[Ev.force fname], ?_, by simp⟩
  unfold force_task
  by_cases ht : task.ptype = "Theory"
  · rw [if_pos ht]
  · rw [if_neg ht]

theorem foldl_trace {α : Type} {ev : Ev} {f : AState → α → AState}
    (hstep : ∀ s x, TraceExt ev s (f s x)) :
    ∀ (l : List α) (s : AState), TraceExt ev s (l.foldl f s) := by
  intro l
  induction l with
  | nil => intro s; exact TraceExt.trefl ev s
  | cons x t ih =>
      intro s
      rw [List.foldl_cons]
      exact (hstep s x).ttrans (ih (f s x))

theorem run_lab_entry_trace (fds : Fds) (fname fshift : String) (e : SubjectEntry)
    (a : AState) :
    TraceExt (Ev.lock fname) a (run_lab_entry fds fname fshift e a) := by
  unfold run_lab_entry
  exact foldl_trace (fun s batch => foldl_trace
    (fun s2 x => lab_attempt_trace fds fname fshift e batch s2) _ _) _ _

theorem run_theory_entry_trace (fds : Fds) (fname fshift : String)
    (e : SubjectEntry) (a : AState) :
    TraceExt (Ev.lock fname) a (run_theory_entry fds fname fshift e a) := by
  unfold run_theory_entry
  exact foldl_trace (fun s2 x => theory_attempt_trace fds fname fshift e s2) _ _

theorem assign_locks_trace (fds : Fds) (fname fshift : String)
    (subjects : List SubjectEntry) (a0 : AState) :
    TraceExt (Ev.lock fname) a0 (assign_locks fds fname fshift subjects a0) := by
  unfold assign_locks
  exact (foldl_trace (fun s e => run_lab_entry_trace fds fname fshift e s) _ _).ttrans
    (foldl_trace (fun s e => run_theory_entry_trace fds fname fshift e s) _ _)

theorem assign_drain_trace (fds : Fds) (fname : String) (a : AState) :
    TraceExt (Ev.force fname) a (assign_drain fds fname a) := by
  unfold assign_drain
  exact foldl_trace (fun s task => force_task_trace fds fname task s) _ _

/-- One faculty's contribution to the trace: its lock events followed by its
force events. -/
def perFacultySeg (name : String) (t : List Ev) : Prop :=
  ∃ ls fs, t = ls ++ fs ∧ (∀ e ∈ ls, e = Ev.lock name) ∧ (∀ e ∈ fs, e = Ev.force name)

/-- The whole trace decomposes faculty by faculty, in input order, each
faculty's segment being locks-then-forces. -/
def runSegmented : List Faculty → List Ev → Prop
  | [], t => t = []
  | f :: rest, t => ∃ seg t2, t = seg ++ t2 ∧ perFacultySeg f.name seg ∧
      runSegmented rest t2

theorem assign_trace (fds : Fds) (f : Faculty) (st : EngineState) :
    ∃ seg, (assign_subjects_for_faculty fds f st).trace = st.trace ++ seg ∧
      perFacultySeg f.name seg := by
  unfold assign_subjects_for_faculty
  cases hdl : ftLookup st.ftables f.name with
  | some g0 =>
      obtain ⟨ls, hel, hal⟩ := assign_locks_trace fds f.name f.shift f.subjects
        ⟨g0, st.dtables, st.rng, [], st.trace⟩
      obtain ⟨fs, hef, haf⟩ := assign_drain_trace fds f.name
        (assign_locks fds f.name f.shift f.subjects ⟨g0, st.dtables, st.rng, [], st.trace⟩)
      refine ⟨ls ++ fs, ?_, ls, fs, rfl, hal, haf⟩
      show (assign_drain fds f.name (assign_locks fds f.name f.shift f.subjects
        ⟨g0, st.dtables, st.rng, [], st.trace⟩)).trace = st.trace ++ (ls ++ fs)
      rw [hef, hel, List.append_assoc]
  | none =>
      obtain ⟨ls, hel, hal⟩ := assign_locks_trace fds f.name f.shift f.subjects
        ⟨empty_table_for_shift f.shift, st.dtables, st.rng, [], st.trace⟩
      obtain ⟨fs, hef, haf⟩ := assign_drain_trace fds f.name
        (assign_locks fds f.name f.shift f.subjects
          ⟨empty_table_for_shift f.shift, st.dtables, st.rng, [], st.trace⟩)
      refine ⟨ls ++ fs, ?_, ls, fs, rfl, hal, haf⟩
      show (assign_drain fds f.name (assign_locks fds f.name f.shift f.subjects
        ⟨empty_table_for_shift f.shift, st.dtables, st.rng, [], st.trace⟩)).trace =
        st.trace ++ (ls ++ fs)
      rw [hef, hel, List.append_assoc]

theorem fold_assign_trace (fds : Fds) :
    ∀ (faculties : List Faculty) (st : EngineState),
      ∃ t2, (faculties.foldl (fun s f => assign_subjects_for_faculty fds f s) st).trace =
        st.trace ++ t2 ∧ runSegmented faculties t2 := by
  intro faculties
  induction faculties with
  | nil => intro st; exact ⟨[], by simp, rfl⟩
  | cons f rest ih =>
      intro st
      rw [List.foldl_cons]
      obtain ⟨seg, hseg, hper⟩ := assign_trace fds f st
      obtain ⟨t2, ht2, hrun⟩ := ih (assign_subjects_for_faculty fds f st)
      refine ⟨seg ++ t2, ?_, seg, t2, rfl, hper, hrun⟩
      rw [ht2, hseg, List.append_assoc]

/-! ## Helper facts for shift-window admissibility and slot equivalence -/

/-- A division slot of the `"8-3"` grid whose canonical start is at least
600 minutes (10:00). -/
def slotStartsLate (slot : String) : Bool :=
  match canonical_map "8-3" slot with
  | some c => decide (600 ≤ c.1)
  | none => false

theorem slots_equivalent_eq {sa la sb lb : String}
    (h : slots_equivalent sa la sb lb = true) :
    ∃ c, canonical_map sa la = some c ∧ canonical_map sb lb = some c := by
  unfold slots_equivalent at h
  cases ha : canonical_map sa la with
  | none => rw [ha] at h; cases h
  | some ca =>
      cases hb : canonical_map sb lb with
      | none => rw [ha, hb] at h; cases h
      | some cb =>
          rw [ha, hb] at h
          simp only [Bool.and_eq_true, beq_iff_eq] at h
          exact ⟨ca, rfl, congrArg some (Prod.ext h.1 h.2).symm⟩

theorem allowed_on_8_3_late {ds : String} (hmem : ds ∈ SHIFT_SLOTS "8-3")
    (h : division_slot_allowed_for_faculty "10-5" "8-3" ds = true) :
    slotStartsLate ds = true := by
  unfold division_slot_allowed_for_faculty at h
  rw [if_pos (by decide)] at h
  unfold is_slot_allowed_for_10_5_on_8_3 at h
  rw [if_pos (by simpa using hmem)] at h
  unfold slotStartsLate
  cases hc : canonical_map "8-3" ds with
  | none => rw [hc] at h; cases h
  | some c => rw [hc] at h; exact h

/-- Every consecutive pair of the `"10-5"` shift starts at or after 10:00. -/
theorem pairs_10_5_late : ∀ p ∈ consecutive_pairs_for_shift "10-5",
    (canonical_map "10-5" p.1).all (fun c => decide (600 ≤ c.1)) = true ∧
    (canonical_map "10-5" p.2).all (fun c => decide (600 ≤ c.1)) = true := by
  decide

theorem equiv_with_10_5_late {fs ds : String}
    (hmem : (canonical_map "10-5" fs).all (fun c => decide (600 ≤ c.1)) = true)
    (h : slots_equivalent "10-5" fs "8-3" ds = true) :
    slotStartsLate ds = true := by
  obtain ⟨c, hca, hcb⟩ := slots_equivalent_eq h
  rw [hca] at hmem
  unfold slotStartsLate
  rw [hcb]
  simpa using hmem

/-! ## The pre-marking overwrites whole days -/

/-- Every grid in the store has the standard day keys. -/
def DaysOK (dt : DTables) : Prop :=
  ∀ k p, dtLookup dt k = some p → p.2.days = DAYS

theorem freshDivGrid_days (fds : Fds) (sem div sh : String) :
    (freshDivGrid fds sem div sh).days = DAYS :=
  (markHolidayTeaching_struct (empty_table_for_shift sh) sh sem div (fdsGet fds sem div)).1

theorem ensure_daysok {fds : Fds} {dt : DTables} (sem div sh : String)
    (hdok : DaysOK dt) : DaysOK (ensure_div_table fds dt sem div sh).2.2 := by
  rcases ensure_cases fds dt sem div sh with ⟨he, _⟩ | ⟨hn, _, _, he⟩
  · rw [he]; exact hdok
  · rw [he]
    intro k q hl
    rw [dtLookup_append] at hl
    cases h2 : dtLookup dt k with
    | some r =>
        rw [h2] at hl
        have hrq : r = q := by simpa using hl
        rw [← hrq]
        exact hdok k r h2
    | none =>
        rw [h2] at hl
        by_cases hk : (sem, div) = k
        · rw [if_pos hk] at hl
          have hq : (sh, freshDivGrid fds sem div sh) = q := by simpa using hl
          rw [← hq]
          exact freshDivGrid_days fds sem div sh
        · rw [if_neg hk] at hl
          cases hl

theorem ensure_grid_days {fds : Fds} {dt : DTables} (sem div sh : String)
    (hdok : DaysOK dt) : (ensure_div_table fds dt sem div sh).1.days = DAYS := by
  exact ensure_daysok sem div sh hdok _ _ (ensure_lookup fds dt sem div sh)

/-- `mark_days` writes the sentinel into every slot of every selected day
present among the grid's day keys. -/
theorem mark_days_cell_hit {sem div : String} {days : List String} :
    ∀ {tbl : Grid} {day slot : String}, day ∈ days →
      tbl.days.contains day = true → slot ∈ tbl.slots →
      (mark_days sem div days tbl).cell day slot = mkSentinel sem div := by
  induction days with
  | nil => intro tbl day slot hd _ _; exact absurd hd (List.not_mem_nil _)
  | cons d rest ih =>
      intro tbl day slot hd hcont hslot
      unfold mark_days
      rw [List.foldl_cons]
      show (mark_days sem div rest
        (if tbl.days.contains d then mark_all_slots tbl d sem div else tbl)).cell day slot =
        mkSentinel sem div
      rcases List.mem_cons.1 hd with rfl | hdr
      · rw [if_pos hcont]
        rcases mark_days_cell_cases sem div rest (mark_all_slots tbl day sem div) day slot
          with hc | hc
        · rw [hc]
          exact mark_all_slots_cell_hit tbl sem div hslot
        · rw [hc]
      · by_cases hcd : tbl.days.contains d
        · rw [if_pos hcd]
          refine ih hdr ?_ ?_
          · rw [(mark_all_slots_struct tbl d sem div).1]
            exact hcont
          · rw [(mark_all_slots_struct tbl d sem div).2]
            exact hslot
        · rw [if_neg hcd]
          exact ih hdr hcont hslot

/-- A present key survives one `apply_entry` step with its shift, slots and
days unchanged and all of its sentinel cells intact. -/
theorem apply_entry_keeps (fds : Fds) (dsm : List ((String × String) × String))
    (dt : DTables) (e : (String × String) × List String) (k : String × String)
    (p : String × Grid) (hl : dtLookup dt k = some p) :
    ∃ g', dtLookup (apply_entry fds dsm dt e) k = some (p.1, g') ∧
      g'.slots = p.2.slots ∧ g'.days = p.2.days ∧
      (∀ day slot, p.2.cell day slot = mkSentinel k.1 k.2 →
        g'.cell day slot = mkSentinel k.1 k.2) := by
  unfold apply_entry
  by_cases hk : e.1 = k
  · rcases ensure_cases fds dt e.1.1 e.1.2 (shiftOf dsm e.1) with
      ⟨he, q, hq, h1, h2⟩ | ⟨hn, _, _, _⟩
    · have hqp : q = p := by
        rw [hk] at hq
        rw [hq] at hl
        simpa using hl
      have hlook : dtLookup (ensure_div_table fds dt e.1.1 e.1.2 (shiftOf dsm e.1)).2.2
          (e.1.1, e.1.2) = some ((ensure_div_table fds dt e.1.1 e.1.2 (shiftOf dsm e.1)).2.1,
            (ensure_div_table fds dt e.1.1 e.1.2 (shiftOf dsm e.1)).1) :=
        ensure_lookup fds dt e.1.1 e.1.2 (shiftOf dsm e.1)
      have hkey : (e.1.1, e.1.2) = k := by rw [← hk]
      rw [hkey] at hlook
      refine ⟨mark_days e.1.1 e.1.2 e.2 (ensure_div_table fds dt e.1.1 e.1.2
        (shiftOf dsm e.1)).1, ?_, ?_, ?_, ?_⟩
      · have hset := dtLookup_setTable_self hlook (mark_days e.1.1 e.1.2 e.2
          (ensure_div_table fds dt e.1.1 e.1.2 (shiftOf dsm e.1)).1)
        rw [hk] at hset h2
        rw [hk, hset, h2, hqp]
      · rw [(mark_days_struct e.1.1 e.1.2 e.2 _).2, h1, hqp]
      · rw [(mark_days_struct e.1.1 e.1.2 e.2 _).1, h1, hqp]
      · intro day slot hcell
        rcases mark_days_cell_cases e.1.1 e.1.2 e.2
          (ensure_div_table fds dt e.1.1 e.1.2 (shiftOf dsm e.1)).1 day slot with hc | hc
        · rw [hc, h1, hqp]
          exact hcell
        · rw [hc]
          rw [← hk]
    · rw [hk] at hn
      rw [hn] at hl
      cases hl
  · have hl2 : dtLookup (ensure_div_table fds dt e.1.1 e.1.2 (shiftOf dsm e.1)).2.2 k =
        some p := by
      rcases ensure_cases fds dt e.1.1 e.1.2 (shiftOf dsm e.1) with
        ⟨he, _⟩ | ⟨hn, _, _, he⟩
      · rw [he]; exact hl
      · rw [he, dtLookup_append, hl]
    refine ⟨p.2, ?_, rfl, rfl, fun day slot h => h⟩
    have hkk : ¬(k = e.1) := fun h => hk h.symm
    rw [dtLookup_setTable_other hkk _, hl2]

theorem dtSetTable_daysok {dt : DTables} {k : String × String} {g1 : Grid}
    (hdok : DaysOK dt) (hg : g1.days = DAYS) : DaysOK (dtSetTable dt k g1) := by
  intro k' p hl
  by_cases hk : k' = k
  · rw [hk] at hl
    cases h0 : dtLookup dt k with
    | none => rw [dtLookup_setTable_none h0 g1] at hl; cases hl
    | some q =>
        rw [dtLookup_setTable_self h0 g1] at hl
        obtain rfl : (q.1, g1) = p := by simpa using hl
        exact hg
  · rw [dtLookup_setTable_other hk g1] at hl
    exact hdok k' p hl

theorem apply_entry_daysok (fds : Fds) (dsm : List ((String × String) × String))
    (dt : DTables) (e : (String × String) × List String) (hdok : DaysOK dt) :
    DaysOK (apply_entry fds dsm dt e) := by
  unfold apply_entry
  refine dtSetTable_daysok (ensure_daysok e.1.1 e.1.2 (shiftOf dsm e.1) hdok) ?_
  rw [(mark_days_struct e.1.1 e.1.2 e.2 _).1]
  exact ensure_grid_days e.1.1 e.1.2 (shiftOf dsm e.1) hdok

theorem apply_entry_lookup_self (fds : Fds) (dsm : List ((String × String) × String))
    (dt : DTables) (e : (String × String) × List String) :
    dtLookup (apply_entry fds dsm dt e) e.1 =
      some ((ensure_div_table fds dt e.1.1 e.1.2 (shiftOf dsm e.1)).2.1,
        mark_days e.1.1 e.1.2 e.2
          (ensure_div_table fds dt e.1.1 e.1.2 (shiftOf dsm e.1)).1) := by
  unfold apply_entry
  exact dtLookup_setTable_self (ensure_lookup fds dt e.1.1 e.1.2 (shiftOf dsm e.1)) _

theorem fold_apply_keeps (fds : Fds) (dsm : List ((String × String) × String)) :
    ∀ (l : List ((String × String) × List String)) (dt : DTables)
      (k : String × String) (p : String × Grid), dtLookup dt k = some p →
      ∃ g', dtLookup (l.foldl (apply_entry fds dsm) dt) k = some (p.1, g') ∧
        g'.slots = p.2.slots ∧
        (∀ day slot, p.2.cell day slot = mkSentinel k.1 k.2 →
          g'.cell day slot = mkSentinel k.1 k.2) := by
  intro l
  induction l with
  | nil => intro dt k p hl; exact ⟨p.2, by rw [List.foldl_nil, hl], rfl, fun _ _ h => h⟩
  | cons e rest ih =>
      intro dt k p hl
      rw [List.foldl_cons]
      obtain ⟨g1, hl1, hs1, hd1, hc1⟩ := apply_entry_keeps fds dsm dt e k p hl
      obtain ⟨g2, hl2, hs2, hc2⟩ := ih (apply_entry fds dsm dt e) k (p.1, g1) hl1
      exact ⟨g2, hl2, by rw [hs2]; exact hs1, fun day slot h => hc2 day slot (hc1 day slot h)⟩

theorem fold_apply_hit (fds : Fds) (dsm : List ((String × String) × String)) :
    ∀ (l : List ((String × String) × List String)) (dt : DTables), DaysOK dt →
      ∀ entry ∈ l, ∀ day slot, day ∈ entry.2 → day ∈ DAYS →
        slot ∈ dtSlots (l.foldl (apply_entry fds dsm) dt) entry.1 →
        dtCell (l.foldl (apply_entry fds dsm) dt) entry.1 day slot =
          mkSentinel entry.1.1 entry.1.2 := by
  intro l
  induction l with
  | nil => intro dt _ entry he; exact absurd he (List.not_mem_nil _)
  | cons e rest ih =>
      intro dt hdok entry he day slot hday hdays hslot
      rw [List.foldl_cons] at hslot ⊢
      rcases List.mem_cons.1 he with rfl | her
      · have hself := apply_entry_lookup_self fds dsm dt entry
        obtain ⟨g2, hl2, hs2, hc2⟩ := fold_apply_keeps fds dsm rest
          (apply_entry fds dsm dt entry) entry.1 _ hself
        rw [dtCell_some hl2]
        rw [dtSlots_some hl2] at hslot
        have hslot1 : slot ∈ (ensure_div_table fds dt entry.1.1 entry.1.2
            (shiftOf dsm entry.1)).1.slots := by
          rw [hs2] at hslot
          have : slot ∈ (mark_days entry.1.1 entry.1.2 entry.2
            (ensure_div_table fds dt entry.1.1 entry.1.2 (shiftOf dsm entry.1)).1).slots :=
            hslot
          rw [(mark_days_struct entry.1.1 entry.1.2 entry.2 _).2] at this
          exact this
        refine hc2 day slot ?_
        show (mark_days entry.1.1 entry.1.2 entry.2
          (ensure_div_table fds dt entry.1.1 entry.1.2 (shiftOf dsm entry.1)).1).cell day slot =
          mkSentinel entry.1.1 entry.1.2
        refine mark_days_cell_hit hday ?_ hslot1
        rw [ensure_grid_days entry.1.1 entry.1.2 (shiftOf dsm entry.1) hdok]
        simpa using hdays
      · exact ih (apply_entry fds dsm dt e) (apply_entry_daysok fds dsm dt e hdok)
          entry her day slot hday hdays hslot

/-! ## Concrete inputs for counterexamples and witnesses -/

/-- A concrete PRNG stream: every draw returns the identity day order. -/
def exRng : Rng := ⟨fun _ => DAYS, 0⟩

/-- Sem 3 Div A takes the whole week off. -/
def exFdsAll : Fds := [(("3", "A"), DAYS)]

/-- Sem 3 Div A takes Monday off. -/
def exFdsMon : Fds := [(("3", "A"), ["Mon"])]

def exTheoryEntry (sem div subj : String) : SubjectEntry :=
  { type := "Theory", semester := sem, division := div, div_shift := "8-3",
    subject := subj, theory_classes := 1 }

/-- Faculty whose only obligation targets the fully-holiday division. -/
def exF1 : Faculty := ⟨"F1", "8-3", [exTheoryEntry "3" "A" "X"]⟩

/-- Faculty with an ordinary obligation. -/
def exF2 : Faculty := ⟨"F2", "8-3", [exTheoryEntry "5" "B" "Y"]⟩

/-! ## Claim C1 -/

/-- The claim's ordering property: every force call comes after every lock
call of the whole run. -/
def ForcesAfterAllLocks (t : List Ev) : Prop :=
  ∀ i j fa fb, t.get? i = some (Ev.force fa) → t.get? j = some (Ev.lock fb) → j < i

/-- Claim C1, counterexample: with two faculties where the first faculty's
only obligation cannot be locked (its division is fully holiday-marked), the
driver force-places the first faculty's pending task before the second
faculty's lock pass runs — the trace is lock(F1), force(F1), lock(F2), so a
force call precedes a lock call. -/
theorem claim_C1_counterexample :
    ¬ ForcesAfterAllLocks (run_engine [exF1, exF2] exFdsAll exRng).trace := by
  intro h
  have ht : (run_engine [exF1, exF2] exFdsAll exRng).trace =
      [Ev.lock "F1", Ev.force "F1", Ev.lock "F2"] := by decide
  have := h 1 2 "F1" "F2" (by rw [ht]; rfl) (by rw [ht]; rfl)
  omega

/-- Claim C1, amended: the pending queue is faculty-local — it is drained by
force placement at the end of each faculty's own scheduling, after that
faculty's lock passes but before the next faculty's lock passes.  Formally,
the run trace decomposes, faculty by faculty in input order, into segments
that are each that faculty's lock events followed by its force events. -/
theorem claim_C1_amended : ∀ (faculties : List Faculty) (fds : Fds) (rng : Rng),
    runSegmented faculties (run_engine faculties fds rng).trace := by
  intro faculties fds rng
  obtain ⟨t2, ht, hseg⟩ := fold_assign_trace fds faculties (initState faculties fds rng)
  rw [run_engine_eq_fold]
  have h0 : (initState faculties fds rng).trace = [] := rfl
  rw [h0, List.nil_append] at ht
  rw [ht]
  exact hseg

/-! ## Claim C2 -/

/-- Claim C2, counterexample: on the Monday holiday of Sem 3 Div A, the
pre-marking overwrites the short-break cell — an inert cell — with the
holiday sentinel instead of leaving its break label in place. -/
theorem claim_C2_counterexample :
    isInert "9:45-10:00 Short Break" = true ∧
    (empty_table_for_shift "8-3").cell "Mon" "9:45-10:00 Short Break" =
      "9:45-10:00 Short Break" ∧
    dtCell (apply_free_day_markings_from_inputs exFdsMon [] [exF1]) ("3", "A")
      "Mon" "9:45-10:00 Short Break" = mkSentinel "3" "A" ∧
    mkSentinel "3" "A" ≠ "9:45-10:00 Short Break" := by decide

/-- Claim C2, amended: for every `(sem,div) → days` entry of FreeDaySettings
and every selected day that is a day key of the grid, the pre-marking
overwrites every slot of that day — teaching and inert alike — with the
holiday sentinel. -/
theorem claim_C2_amended : ∀ (fds : Fds) (faculties : List Faculty)
    (entry : (String × String) × List String) (day slot : String),
    entry ∈ fds → day ∈ entry.2 → day ∈ DAYS →
    slot ∈ dtSlots (apply_free_day_markings_from_inputs fds [] faculties) entry.1 →
    dtCell (apply_free_day_markings_from_inputs fds [] faculties) entry.1 day slot =
      mkSentinel entry.1.1 entry.1.2 := by
  intro fds faculties entry day slot he hday hdays hslot
  unfold apply_free_day_markings_from_inputs at hslot ⊢
  exact fold_apply_hit fds (build_div_shift_map faculties) fds []
    (fun k p h => by cases h) entry he day slot hday hdays hslot

/-- Witness for the amended C2 at the concrete Monday-holiday input: the
lunch-break cell of the marked Monday holds the sentinel. -/
theorem claim_C2_witness :
    (((("3", "A"), ["Mon"]) : (String × String) × List String) ∈ exFdsMon ∧
      "Mon" ∈ ["Mon"] ∧ "Mon" ∈ DAYS ∧
      "12:00-12:45 Lunch Break" ∈
        dtSlots (apply_free_day_markings_from_inputs exFdsMon [] [exF1]) ("3", "A")) ∧
    dtCell (apply_free_day_markings_from_inputs exFdsMon [] [exF1]) ("3", "A")
      "Mon" "12:00-12:45 Lunch Break" = mkSentinel "3" "A" :=
  ⟨⟨by decide, by decide, by decide, by decide⟩,
    claim_C2_amended exFdsMon [exF1] (("3", "A"), ["Mon"]) "Mon"
      "12:00-12:45 Lunch Break" (by decide) (by decide) (by decide) (by decide)⟩

/-! ## Claim C3 -/

/-- Claim C3, counterexample: the free-day pre-marking overwrites a non-empty
cell with a different non-empty value.  At grid creation the Monday
short-break cell holds its break label (non-empty); after the pre-marking
step of the same run it holds the holiday sentinel. -/
theorem claim_C3_counterexample :
    (empty_table_for_shift "8-3").cell "Mon" "9:45-10:00 Short Break" =
      "9:45-10:00 Short Break" ∧
    "9:45-10:00 Short Break" ≠ "" ∧
    dtCell (initState [exF1] exFdsMon exRng).dtables ("3", "A") "Mon"
      "9:45-10:00 Short Break" = mkSentinel "3" "A" ∧
    mkSentinel "3" "A" ≠ "9:45-10:00 Short Break" ∧
    mkSentinel "3" "A" ≠ "" := by decide

/-- Claim C3, amended: cell monotonicity holds for the whole scheduling phase
(lock passes and force passes over all faculties) after the free-day
pre-marking; it is only the pre-marking itself that may overwrite a non-empty
(inert break/lunch) cell with the different non-empty holiday sentinel.
Formally, starting from the pre-marked state, between every pair of
consecutive engine states no existing grid has any non-empty cell changed. -/
theorem claim_C3_amended : ∀ (faculties : List Faculty) (fds : Fds) (rng : Rng),
    MonoChain fds (initState faculties fds rng) faculties :=
  fun faculties fds rng => monochain_of_inv fds faculties _ (initState_inv faculties fds rng)

/-! ## Claim C4 -/

/-- Claim C4, confirmed: every placement committed by any pass — lock theory
(both attempts), lock lab (strict and relaxed), force theory (tight and
relaxed) and force lab (tight and relaxed, the last without an admissibility
guard) — of a `"10-5"` (LATE) faculty into an `"8-3"` (MORNING) division grid
occupies only division slots whose canonical start is at least 600 minutes
(10:00); for labs this covers both slots of the pair, including the `MERGE`
continuation slot. -/
theorem claim_C4 : ∀ (fds : Fds) (ftbl dtbl : Grid)
    (fname sem div subject batch : String) (avoid_dup : Bool) (rng : Rng),
    (∀ p, (lock_theory fds ftbl dtbl "10-5" "8-3" fname sem div subject
        avoid_dup rng).placed = some p → slotStartsLate p.dslot = true) ∧
    (∀ lp, (lock_lab fds ftbl dtbl "10-5" "8-3" fname sem div subject batch
        avoid_dup rng).placed = some lp →
      slotStartsLate lp.ds1 = true ∧ slotStartsLate lp.ds2 = true) ∧
    (∀ p, (force_place_theory fds ftbl dtbl "10-5" "8-3" fname sem div
        subject).placed = some p → slotStartsLate p.dslot = true) ∧
    (∀ lp, (force_place_lab fds ftbl dtbl "10-5" "8-3" fname sem div subject
        batch).placed = some lp →
      slotStartsLate lp.ds1 = true ∧ slotStartsLate lp.ds2 = true) := by
  intro fds ftbl dtbl fname sem div subject batch avoid_dup rng
  refine ⟨?_, ?_, ?_, ?_⟩
  · intro p hp
    have h := lock_theory_spec fds ftbl dtbl "10-5" "8-3" fname sem div subject avoid_dup rng
    rw [hp] at h
    obtain ⟨_, hm2, _, _, _, ha, _, _⟩ := h
    exact allowed_on_8_3_late hm2 ha
  · intro lp hp
    have h := lock_lab_spec fds ftbl dtbl "10-5" "8-3" fname sem div subject batch avoid_dup rng
    rw [hp] at h
    obtain ⟨hfm, _, _, _, he, _, _⟩ := h
    obtain ⟨he1, he2⟩ : slots_equivalent "10-5" lp.fs1 "8-3" lp.ds1 = true ∧
        slots_equivalent "10-5" lp.fs2 "8-3" lp.ds2 = true := by
      have := he
      unfold pair_slots_equivalent at this
      exact by simpa using this
    obtain ⟨hl1, hl2⟩ := pairs_10_5_late (lp.fs1, lp.fs2) hfm
    exact ⟨equiv_with_10_5_late hl1 he1, equiv_with_10_5_late hl2 he2⟩
  · intro p hp
    have h := force_place_theory_spec fds ftbl dtbl "10-5" "8-3" fname sem div subject
    rw [hp] at h
    obtain ⟨_, hm2, _, _, _, ha, _, _⟩ := h
    exact allowed_on_8_3_late hm2 ha
  · intro lp hp
    have h := force_place_lab_spec fds ftbl dtbl "10-5" "8-3" fname sem div subject batch
    rw [hp] at h
    obtain ⟨hfm, _, _, _, he, _, _⟩ := h
    obtain ⟨he1, he2⟩ : slots_equivalent "10-5" lp.fs1 "8-3" lp.ds1 = true ∧
        slots_equivalent "10-5" lp.fs2 "8-3" lp.ds2 = true := by
      have := he
      unfold pair_slots_equivalent at this
      exact by simpa using this
    obtain ⟨hl1, hl2⟩ := pairs_10_5_late (lp.fs1, lp.fs2) hfm
    exact ⟨equiv_with_10_5_late hl1 he1, equiv_with_10_5_late hl2 he2⟩

/-- Witness for C4 at a concrete successful cross-shift lock: a `"10-5"`
faculty locks theory into an `"8-3"` division grid at the 10:00-11:00 slot,
whose canonical start is 600. -/
theorem claim_C4_witness :
    (lock_theory [] (empty_table_for_shift "10-5") (empty_table_for_shift "8-3")
      "10-5" "8-3" "F" "3" "A" "X" true exRng).placed =
      some ⟨"Mon", "10:00-11:00", "Mon", "10:00-11:00"⟩ ∧
    slotStartsLate (⟨"Mon", "10:00-11:00", "Mon", "10:00-11:00"⟩ : Placement).dslot = true :=
  ⟨by decide,
    (claim_C4 [] (empty_table_for_shift "10-5") (empty_table_for_shift "8-3")
      "F" "3" "A" "X" "B1" true exRng).1
      ⟨"Mon", "10:00-11:00", "Mon", "10:00-11:00"⟩ (by decide)⟩

/-! ## Claim C5 -/

/-- Claim C5, confirmed (strengthened to every pass): after an entire engine
run — free-day pre-marking, all lock passes including the guard-free
fallback, and all force passes including the relaxed ones — every teaching
slot of a day recorded in FreeDaySettings for a division grid's key still
holds the holiday sentinel, so no pass ever wrote a non-holiday placement
into such a cell. -/
theorem claim_C5 : ∀ (faculties : List Faculty) (fds : Fds) (rng : Rng)
    (k : String × String) (day slot : String),
    day ∈ fdsGet fds k.1 k.2 →
    slot ∈ dtSlots (run_engine faculties fds rng).dtables k →
    isInert slot = false →
    dtCell (run_engine faculties fds rng).dtables k day slot = mkSentinel k.1 k.2 :=
  fun faculties fds rng k day slot hday hslot hni =>
    (run_engine_inv faculties fds rng).2.2 k day slot hday hslot hni

/-- Witness for C5 at the concrete two-faculty run: after the run, the first
teaching slot of the all-week holiday division still holds the sentinel. -/
theorem claim_C5_witness :
    ("Mon" ∈ fdsGet exFdsAll "3" "A" ∧
      "8-8:45" ∈ dtSlots (run_engine [exF1, exF2] exFdsAll exRng).dtables ("3", "A") ∧
      isInert "8-8:45" = false) ∧
    dtCell (run_engine [exF1, exF2] exFdsAll exRng).dtables ("3", "A") "Mon" "8-8:45" =
      mkSentinel "3" "A" :=
  ⟨⟨by decide, by decide, by decide⟩,
    claim_C5 [exF1, exF2] exFdsAll exRng ("3", "A") "Mon" "8-8:45"
      (by decide) (by decide) (by decide)⟩

/-! ## Claim C6 -/

/-- Claim C6, confirmed: for every successful placement of any pass, the
faculty-grid slot and the division-grid slot carry the same canonical
(start, end) pair; for labs this holds for both slots of the pair. -/
theorem claim_C6 : ∀ (fds : Fds) (ftbl dtbl : Grid)
    (fshift dshift fname sem div subject batch : String) (avoid_dup : Bool)
    (rng : Rng),
    (∀ p, (lock_theory fds ftbl dtbl fshift dshift fname sem div subject
        avoid_dup rng).placed = some p →
      ∃ c, canonical_map fshift p.fslot = some c ∧ canonical_map dshift p.dslot = some c) ∧
    (∀ lp, (lock_lab fds ftbl dtbl fshift dshift fname sem div subject batch
        avoid_dup rng).placed = some lp →
      (∃ c, canonical_map fshift lp.fs1 = some c ∧ canonical_map dshift lp.ds1 = some c) ∧
      (∃ c, canonical_map fshift lp.fs2 = some c ∧ canonical_map dshift lp.ds2 = some c)) ∧
    (∀ p, (force_place_theory fds ftbl dtbl fshift dshift fname sem div
        subject).placed = some p →
      ∃ c, canonical_map fshift p.fslot = some c ∧ canonical_map dshift p.dslot = some c) ∧
    (∀ lp, (force_place_lab fds ftbl dtbl fshift dshift fname sem div subject
        batch).placed = some lp →
      (∃ c, canonical_map fshift lp.fs1 = some c ∧ canonical_map dshift lp.ds1 = some c) ∧
      (∃ c, canonical_map fshift lp.fs2 = some c ∧ canonical_map dshift lp.ds2 = some c)) := by
  intro fds ftbl dtbl fshift dshift fname sem div subject batch avoid_dup rng
  refine ⟨?_, ?_, ?_, ?_⟩
  · intro p hp
    have h := lock_theory_spec fds ftbl dtbl fshift dshift fname sem div subject avoid_dup rng
    rw [hp] at h
    exact slots_equivalent_eq h.2.2.2.2.1
  · intro lp hp
    have h := lock_lab_spec fds ftbl dtbl fshift dshift fname sem div subject batch avoid_dup rng
    rw [hp] at h
    have he := h.2.2.2.2.1
    unfold pair_slots_equivalent at he
    obtain ⟨he1, he2⟩ : slots_equivalent fshift lp.fs1 dshift lp.ds1 = true ∧
        slots_equivalent fshift lp.fs2 dshift lp.ds2 = true := by simpa using he
    exact ⟨slots_equivalent_eq he1, slots_equivalent_eq he2⟩
  · intro p hp
    have h := force_place_theory_spec fds ftbl dtbl fshift dshift fname sem div subject
    rw [hp] at h
    exact slots_equivalent_eq h.2.2.2.2.1
  · intro lp hp
    have h := force_place_lab_spec fds ftbl dtbl fshift dshift fname sem div subject batch
    rw [hp] at h
    have he := h.2.2.2.2.1
    unfold pair_slots_equivalent at he
    obtain ⟨he1, he2⟩ : slots_equivalent fshift lp.fs1 dshift lp.ds1 = true ∧
        slots_equivalent fshift lp.fs2 dshift lp.ds2 = true := by simpa using he
    exact ⟨slots_equivalent_eq he1, slots_equivalent_eq he2⟩

/-- Witness for C6 at a concrete successful same-shift lock: both committed
cells sit on the 8:00-8:45 slot, canonical pair (480, 525). -/
theorem claim_C6_witness :
    (lock_theory [] (empty_table_for_shift "8-3") (empty_table_for_shift "8-3")
      "8-3" "8-3" "F" "3" "A" "X" true exRng).placed =
      some ⟨"Mon", "8-8:45", "Mon", "8-8:45"⟩ ∧
    (∃ c, canonical_map "8-3" (⟨"Mon", "8-8:45", "Mon", "8-8:45"⟩ : Placement).fslot = some c ∧
      canonical_map "8-3" (⟨"Mon", "8-8:45", "Mon", "8-8:45"⟩ : Placement).dslot = some c) :=
  ⟨by decide,
    (claim_C6 [] (empty_table_for_shift "8-3") (empty_table_for_shift "8-3")
      "8-3" "8-3" "F" "3" "A" "X" "B1" true exRng).1
      ⟨"Mon", "8-8:45", "Mon", "8-8:45"⟩ (by decide)⟩

/-! ## Claim C7 -/

/-- Claim C7, counterexample: a cell holding a single space is not equal to
the empty string, yet `free_slot` reports it free — the code strips the
value before comparing, so the claimed "true iff the cell equals the empty
string" fails on whitespace-only cells. -/
theorem claim_C7_counterexample :
    free_slot (setCell (empty_table_for_shift "8-3") "Mon" "8-8:45" " ")
      "Mon" "8-8:45" = true ∧
    (setCell (empty_table_for_shift "8-3") "Mon" "8-8:45" " ").cell "Mon" "8-8:45" ≠ "" :=
  ⟨by decide, by decide⟩

/-- Claim C7, amended: `free_slot` returns true exactly when the stored cell
is empty after stripping whitespace; in particular every cell holding an
inert label, the holiday sentinel, `"MERGE"` or a prior placement (all
non-whitespace strings) yields false. -/
theorem claim_C7_amended : ∀ (g : Grid) (day slot : String),
    free_slot g day slot = (pyStrip (g.cell day slot) == "") := by
  intro g day slot
  rw [free_slot_eq_vacant]
  rfl

/-! ## Claim C8 -/

/-- Claim C8, counterexample: the empty label has no whitespace token at all,
so `split()[0]` raises `IndexError` — a different error from the claimed
`InvalidSlotFormat` (`ValueError`). -/
theorem claim_C8_counterexample :
    slot_label_to_canonical "" = .error .indexError ∧
    SlotErr.indexError ≠ SlotErr.invalidFormat :=
  ⟨by decide, by decide⟩

/-- Claim C8, amended: a token matching `H(:M)?` parses to minutes with hours
strictly below 8 raised by 12 and a non-matching token fails with
`InvalidSlotFormat`; a label with no whitespace token fails with
`IndexError` (not `InvalidSlotFormat`); otherwise the first token must split
on `-` into exactly two endpoints (else `InvalidSlotFormat`), and the
canonical pair is (start, end) of the two endpoint parses, failing with the
first endpoint error otherwise. -/
theorem claim_C8_amended :
    (∀ tok hh mm, matchTimeShape (pyStrip tok).data = some (hh, mm) →
      parse_time_token tok = .ok ((if hh < 8 then hh + 12 else hh) * 60 + mm)) ∧
    (∀ tok, matchTimeShape (pyStrip tok).data = none →
      parse_time_token tok = .error .invalidFormat) ∧
    (∀ label, pySplitWS label = [] →
      slot_label_to_canonical label = .error .indexError) ∧
    (∀ label main rest, pySplitWS label = main :: rest →
      ((pySplitDash main).length ≠ 2 →
        slot_label_to_canonical label = .error .invalidFormat) ∧
      (∀ a b, pySplitDash main = [a, b] →
        (∀ s e, parse_time_token (pyStrip a) = .ok s →
          parse_time_token (pyStrip b) = .ok e →
          slot_label_to_canonical label = .ok (s, e)) ∧
        (∀ er, parse_time_token (pyStrip a) = .error er →
          slot_label_to_canonical label = .error er) ∧
        (∀ s er, parse_time_token (pyStrip a) = .ok s →
          parse_time_token (pyStrip b) = .error er →
          slot_label_to_canonical label = .error er))) := by
  refine ⟨?_, ?_, ?_, ?_⟩
  · intro tok hh mm h
    unfold parse_time_token
    rw [h]
  · intro tok h
    unfold parse_time_token
    rw [h]
  · intro label h
    simp [slot_label_to_canonical, h]
  · intro label main rest h
    refine ⟨?_, ?_⟩
    · intro hlen
      cases hd : pySplitDash main with
      | nil => simp [slot_label_to_canonical, h, hd]
      | cons x t =>
          cases t with
          | nil => simp [slot_label_to_canonical, h, hd]
          | cons y u =>
              cases u with
              | nil => exact absurd (by simp [hd]) hlen
              | cons z v => simp [slot_label_to_canonical, h, hd]
    · intro a b hd
      refine ⟨?_, ?_, ?_⟩
      · intro s e hs he
        simp [slot_label_to_canonical, Bind.bind, Except.bind, h, hd, hs, he]
      · intro er hserr
        simp [slot_label_to_canonical, Bind.bind, Except.bind, h, hd, hserr]
      · intro s er hs heerr
        simp [slot_label_to_canonical, Bind.bind, Except.bind, h, hd, hs, heerr]

/-- Witness for C8 at the spec's own example label: `"12:45-1:45"` splits
into `"12:45"` and `"1:45"`, parses to 765 and 825 (1 < 8 coerced to 13),
and the amended theorem's success clause yields the canonical pair. -/
theorem claim_C8_witness :
    (pySplitWS "12:45-1:45" = ["12:45-1:45"] ∧
      pySplitDash "12:45-1:45" = ["12:45", "1:45"] ∧
      parse_time_token (pyStrip "12:45") = .ok 765 ∧
      parse_time_token (pyStrip "1:45") = .ok 825) ∧
    slot_label_to_canonical "12:45-1:45" = .ok (765, 825) :=
  ⟨⟨by decide, by decide, by decide, by decide⟩,
    ((claim_C8_amended.2.2.2 "12:45-1:45" "12:45-1:45" [] (by decide)).2
      "12:45" "1:45" (by decide)).1 765 825 (by decide) (by decide)⟩

/-! ## Claim C9 -/

/-- Claim C9, confirmed: the whole engine is a deterministic function of the
faculty plans, the FreeDaySettings and the PRNG stream (the process-wide
generator seeded with 7 at run start); two runs on equal inputs produce
equal faculty-grid stores and equal division-grid stores, hence every cell
equal. -/
theorem claim_C9 : ∀ (f1 f2 : List Faculty) (fds1 fds2 : Fds) (r1 r2 : Rng),
    f1 = f2 → fds1 = fds2 → r1 = r2 →
    (run_engine f1 fds1 r1).ftables = (run_engine f2 fds2 r2).ftables ∧
    (run_engine f1 fds1 r1).dtables = (run_engine f2 fds2 r2).dtables := by
  intro f1 f2 fds1 fds2 r1 r2 hf hd hr
  subst hf
  subst hd
  subst hr
  exact ⟨rfl, rfl⟩

/-- Witness for C9 at a concrete run repeated twice with the same inputs and
stream. -/
theorem claim_C9_witness :
    ([exF1] = [exF1] ∧ exFdsMon = exFdsMon ∧ exRng = exRng) ∧
    (run_engine [exF1] exFdsMon exRng).ftables =
      (run_engine [exF1] exFdsMon exRng).ftables ∧
    (run_engine [exF1] exFdsMon exRng).dtables =
      (run_engine [exF1] exFdsMon exRng).dtables :=
  ⟨⟨rfl, rfl, rfl⟩, claim_C9 [exF1] [exF1] exFdsMon exFdsMon exRng exRng rfl rfl rfl⟩

/-! ## Claim C10 -/

/-- Claim C10, confirmed: each of the four placement operations is atomic on
failure — whenever it reports no placement (Python `False`), the faculty
grid and the division grid it returns are exactly the grids it was given. -/
theorem claim_C10 : ∀ (fds : Fds) (ftbl dtbl : Grid)
    (fshift dshift fname sem div subject batch : String) (avoid_dup : Bool)
    (rng : Rng),
    ((lock_theory fds ftbl dtbl fshift dshift fname sem div subject
        avoid_dup rng).placed = none →
      (lock_theory fds ftbl dtbl fshift dshift fname sem div subject
        avoid_dup rng).ftbl = ftbl ∧
      (lock_theory fds ftbl dtbl fshift dshift fname sem div subject
        avoid_dup rng).dtbl = dtbl) ∧
    ((lock_lab fds ftbl dtbl fshift dshift fname sem div subject batch
        avoid_dup rng).placed = none →
      (lock_lab fds ftbl dtbl fshift dshift fname sem div subject batch
        avoid_dup rng).ftbl = ftbl ∧
      (lock_lab fds ftbl dtbl fshift dshift fname sem div subject batch
        avoid_dup rng).dtbl = dtbl) ∧
    ((force_place_theory fds ftbl dtbl fshift dshift fname sem div
        subject).placed = none →
      (force_place_theory fds ftbl dtbl fshift dshift fname sem div
        subject).ftbl = ftbl ∧
      (force_place_theory fds ftbl dtbl fshift dshift fname sem div
        subject).dtbl = dtbl) ∧
    ((force_place_lab fds ftbl dtbl fshift dshift fname sem div subject
        batch).placed = none →
      (force_place_lab fds ftbl dtbl fshift dshift fname sem div subject
        batch).ftbl = ftbl ∧
      (force_place_lab fds ftbl dtbl fshift dshift fname sem div subject
        batch).dtbl = dtbl) := by
  intro fds ftbl dtbl fshift dshift fname sem div subject batch avoid_dup rng
  refine ⟨?_, ?_, ?_, ?_⟩
  · intro hn
    have h := lock_theory_spec fds ftbl dtbl fshift dshift fname sem div subject avoid_dup rng
    rw [hn] at h
    exact h
  · intro hn
    have h := lock_lab_spec fds ftbl dtbl fshift dshift fname sem div subject batch avoid_dup rng
    rw [hn] at h
    exact h
  · intro hn
    have h := force_place_theory_spec fds ftbl dtbl fshift dshift fname sem div subject
    rw [hn] at h
    exact h
  · intro hn
    have h := force_place_lab_spec fds ftbl dtbl fshift dshift fname sem div subject batch
    rw [hn] at h
    exact h

/-- Witness for C10 at a concrete failing lock: every teaching cell of the
division grid is pre-filled with the holiday sentinel (the whole week is a
holiday for Sem 3 Div A), so both attempts of `lock_theory` fail and both
grids come back unchanged. -/
theorem claim_C10_witness :
    (lock_theory exFdsAll (empty_table_for_shift "8-3")
      (freshDivGrid exFdsAll "3" "A" "8-3") "8-3" "8-3" "F" "3" "A" "X" true
      exRng).placed = none ∧
    (lock_theory exFdsAll (empty_table_for_shift "8-3")
      (freshDivGrid exFdsAll "3" "A" "8-3") "8-3" "8-3" "F" "3" "A" "X" true
      exRng).ftbl = empty_table_for_shift "8-3" ∧
    (lock_theory exFdsAll (empty_table_for_shift "8-3")
      (freshDivGrid exFdsAll "3" "A" "8-3") "8-3" "8-3" "F" "3" "A" "X" true
      exRng).dtbl = freshDivGrid exFdsAll "3" "A" "8-3" :=
  ⟨by decide,
    (claim_C10 exFdsAll (empty_table_for_shift "8-3")
      (freshDivGrid exFdsAll "3" "A" "8-3") "8-3" "8-3" "F" "3" "A" "X" "B1"
      true exRng).1 (by decide)⟩

end TimeTable
